import Mathlib

/-!
Verification of the matrix component of the cpp-math-library repository.

The development shallowly embeds the `math::matrix` class
(src/math_matrix.h + src/math_matrix.cc) and, where they differ, the
templated `math::Matrix<T>` draft from the header, over exact rational
scalars.  A matrix is `rows`, `columns` and a row-major data list; element
(r, c) lives at linear index `columns * r + c`, exactly as in the C++
`get_element`.  Functions that throw in C++ return `Except Err`.
-/

namespace math

/-- Error taxonomy: one constructor per distinct throw condition of the
C++ code (spec section 7 names). -/
inductive Err where
  | InvalidDimension
  | RaggedInput
  | OutOfRange
  | SizeMismatch
  | InnerSizeMismatch
  | NotSquare
  | DegenerateMinor
  | SingularMatrix
deriving DecidableEq

/-- The matrix representation: row count, column count and the backing
store (`std::vector<double>` modelled as a list of rationals). -/
structure matrix where
  rows : Nat
  columns : Nat
  data : List ℚ
deriving DecidableEq

instance {ε α : Type} [DecidableEq ε] [DecidableEq α] : DecidableEq (Except ε α)
  | .error e, .error f =>
    if h : e = f then isTrue (by rw [h]) else isFalse (fun hh => h (Except.error.inj hh))
  | .error _, .ok _ => isFalse (fun hh => Except.noConfusion hh)
  | .ok _, .error _ => isFalse (fun hh => Except.noConfusion hh)
  | .ok a, .ok b =>
    if h : a = b then isTrue (by rw [h]) else isFalse (fun hh => h (Except.ok.inj hh))

/-- `matrix::get_element`: unchecked read `data_[columns_ * row + column]`;
reads past the end of the store yield the default value 0. -/
def get_element (m : matrix) (r c : Nat) : ℚ :=
  m.data.getD (m.columns * r + c) 0

/-- Unchecked write `data_[columns_ * row + column] = v` (out-of-range
writes are dropped, as `List.set` is). -/
def set_element (m : matrix) (r c : Nat) (v : ℚ) : matrix :=
  ⟨m.rows, m.columns, m.data.set (m.columns * r + c) v⟩

/-- The class invariant: positive dimensions and a backing store of
exactly `rows * columns` elements. -/
def wf (m : matrix) : Prop :=
  1 ≤ m.rows ∧ 1 ≤ m.columns ∧ m.data.length = m.rows * m.columns

instance (m : matrix) : Decidable (wf m) := by unfold wf; infer_instance

/-- Helper used to embed C++ loops that fill a fresh rows*columns matrix
writing each cell exactly once, in row-major order, from a pure function
of previously existing matrices. -/
def mkMat (r c : Nat) (f : Nat → Nat → ℚ) : matrix :=
  ⟨r, c, (List.range (r * c)).map (fun idx => f (idx / c) (idx % c))⟩

/-- `matrix::matrix(size_type rows, size_type columns)`: zero dimensions
throw invalid_argument, otherwise a zero-filled store is allocated. -/
def mk_sized (r c : Nat) : Except Err matrix :=
  if r = 0 ∨ c = 0 then .error .InvalidDimension
  else .ok ⟨r, c, List.replicate (r * c) 0⟩

/-- `matrix::matrix(size, diag)`: delegates to the sized constructor and
then writes `diag` at each diagonal cell. -/
def ofDiag (size : Nat) (diag : ℚ) : Except Err matrix :=
  (mk_sized size size).map
    (fun m0 => (List.range size).foldl (fun acc i => set_element acc i i diag) m0)

/-- `matrix::matrix(diag)`: the default 3x3 diagonal constructor. -/
def ofDiag3 (diag : ℚ) : Except Err matrix :=
  ofDiag 3 diag

/-- `matrix::matrix(initializer_list)`: rejects an empty outer list and an
empty first row (InvalidDimension), then rejects rows whose length differs
from the first row's (RaggedInput), and otherwise concatenates the rows. -/
def from_rows (items : List (List ℚ)) : Except Err matrix :=
  if items.length = 0 then .error .InvalidDimension
  else
    let cols := (items.headD []).length
    if cols = 0 then .error .InvalidDimension
    else if items.any (fun row => decide (row.length ≠ cols)) then .error .RaggedInput
    else .ok ⟨items.length, cols, items.flatten⟩

/-- `matrix::matrix(const vector &, bool)`: builds a column (n x 1) or row
(1 x n) matrix through the sized constructor, then copies the vector. -/
def from_vector (v : List ℚ) (is_column : Bool) : Except Err matrix :=
  if v.length = 0 then .error .InvalidDimension
  else .ok (mkMat (if is_column then v.length else 1) (if is_column then 1 else v.length)
    (fun i j => v.getD (if is_column then i else j) 0))

/-- `operator==(const matrix &, const matrix &)`: size check, then
`std::equal` over both whole stores. -/
def matEq (l r : matrix) : Bool :=
  if l.rows ≠ r.rows ∨ l.columns ≠ r.columns then false
  else decide (l.data = r.data)

/-- `operator!=`: the negation of `operator==`. -/
def matNe (l r : matrix) : Bool :=
  !(matEq l r)

/-- The templated `Matrix<T>::operator==` from the header: after the size
check it walks two iterators `i1`, `i2` that are BOTH initialised from
`Begin()` of the receiver, so it compares the receiver's elements with
themselves. -/
def tmpl_eq (l r : matrix) : Bool :=
  if l.rows ≠ r.rows ∨ l.columns ≠ r.columns then false
  else (l.data.zip l.data).all (fun p => decide (p.1 = p.2))

/-- `matrix::operator+=` (and via copy `operator+`): size check throwing
SizeMismatch, then element-wise `std::transform` with plus. -/
def add (l r : matrix) : Except Err matrix :=
  if l.rows ≠ r.rows ∨ l.columns ≠ r.columns then .error .SizeMismatch
  else .ok ⟨l.rows, l.columns, l.data.zipWith (fun a b => a + b) r.data⟩

/-- `matrix::operator-=` (and via copy `operator-`). -/
def sub (l r : matrix) : Except Err matrix :=
  if l.rows ≠ r.rows ∨ l.columns ≠ r.columns then .error .SizeMismatch
  else .ok ⟨l.rows, l.columns, l.data.zipWith (fun a b => a - b) r.data⟩

/-- `matrix::operator*=(const matrix &)`: inner-size check throwing
InnerSizeMismatch, then the triple loop accumulating
`result(i,j) += (i,k) * other(k,j)` into a zero-initialised matrix of
shape rows x other.columns. -/
def mul (l r : matrix) : Except Err matrix :=
  if l.columns ≠ r.rows then .error .InnerSizeMismatch
  else .ok (mkMat l.rows r.columns (fun i j =>
    (List.range l.columns).foldl (fun acc k => acc + get_element l i k * get_element r k j) 0))

/-- `matrix::operator*=(const value_type &)`: element-wise `el * value`. -/
def smul (m : matrix) (v : ℚ) : matrix :=
  ⟨m.rows, m.columns, m.data.map (fun a => a * v)⟩

/-- `matrix::operator/=(const value_type &)`: implemented in the source as
multiplication by `1.0 / value`. -/
def div_scalar (m : matrix) (v : ℚ) : matrix :=
  smul m (1 / v)

/-- `matrix::transposed()`: a fresh columns x rows matrix with
`result(i,j) = (j,i)`. -/
def transposed (m : matrix) : matrix :=
  mkMat m.columns m.rows (fun i j => get_element m j i)

/-- `matrix::minor_matrix(row, column)`: throws on any dimension equal to
1, then bounds-checks, then deletes the given row and column keeping the
relative order (the im/jm skip counters of the source realise exactly the
index maps used here). -/
def minor_matrix (m : matrix) (row col : Nat) : Except Err matrix :=
  if m.rows = 1 ∨ m.columns = 1 then .error .DegenerateMinor
  else if m.rows ≤ row ∨ m.columns ≤ col then .error .OutOfRange
  else .ok (mkMat (m.rows - 1) (m.columns - 1) (fun im jm =>
    get_element m (if im < row then im else im + 1) (if jm < col then jm else jm + 1)))

/-- Fuel-indexed unrolling of the `find_not_zero_row` loop; the fuel is
always at least `rows + 1 - from_row`, enough for the loop, whose
condition fails no later than `from_row = rows`, to terminate on its
own. -/
def fnzr_go (m : matrix) (col : Nat) : Nat → Nat → Nat
  | 0, fr => fr
  | fuel + 1, fr =>
    if get_element m fr col = 0 ∧ fr < m.rows then fnzr_go m col fuel (fr + 1) else fr

/-- `matrix::find_not_zero_row`: the C++ loop
`while (!get_element(from_row, column) && from_row < rows_) ++from_row`.
Note the element is read BEFORE the row bound is tested. -/
def find_not_zero_row (m : matrix) (from_row col : Nat) : Nat :=
  fnzr_go m col (m.rows + 1 - from_row) from_row

/-- Fuel-indexed companion of `fnzr_go` recording reads. -/
def fnzr_reads_go (m : matrix) (col : Nat) : Nat → Nat → List Nat
  | 0, fr => [m.columns * fr + col]
  | fuel + 1, fr =>
    (m.columns * fr + col) ::
      (if get_element m fr col = 0 ∧ fr < m.rows then fnzr_reads_go m col fuel (fr + 1) else [])

/-- The sequence of linear store indices `find_not_zero_row` reads, in
order: every loop-condition evaluation reads `data_[columns_*from_row+col]`
first, including the final one where `from_row` has already reached
`rows_`. -/
def find_not_zero_row_reads (m : matrix) (from_row col : Nat) : List Nat :=
  fnzr_reads_go m col (m.rows + 1 - from_row) from_row

/-- The pivot-absorption loop of `upper_triangle_matrix`:
`for i < columns: result(dst, i) += result(src, i)`. -/
def row_add_into (m : matrix) (dst src : Nat) : matrix :=
  (List.range m.columns).foldl
    (fun acc i => set_element acc dst i (get_element acc dst i + get_element acc src i)) m

/-- The row-elimination loop of `upper_triangle_matrix`: the multiplier is
computed once, then `for k < columns: result(i, k) -= result(j, k) * multiplier`. -/
def elim_row (m : matrix) (i j : Nat) : matrix :=
  let multiplier := get_element m i j / get_element m j j
  (List.range m.columns).foldl
    (fun acc k => set_element acc i k (get_element acc i k - get_element acc j k * multiplier)) m

/-- The loop over the rows strictly below the pivot row:
`for i = j+1 .. rows-1: if (result(i, j)) eliminate row i`. -/
def elim_below (m : matrix) (j : Nat) : matrix :=
  (List.range' (j + 1) (m.rows - (j + 1))).foldl
    (fun acc i => if get_element acc i j ≠ 0 then elim_row acc i j else acc) m

/-- One iteration of the column loop of `matrix::upper_triangle_matrix`:
pivot search from the diagonal; skip the column when the search ran past
the last row; add the pivot row into row j when it is a later row; then
eliminate below. -/
def gauss_step (m : matrix) (j : Nat) : matrix :=
  let non_zero_row := find_not_zero_row m j j
  if m.rows ≤ non_zero_row then m
  else elim_below (if non_zero_row ≠ j then row_add_into m j non_zero_row else m) j

/-- `matrix::upper_triangle_matrix()`: the column loop
`for j = 0 .. columns-2` over a copy of the matrix. -/
def upper_triangle_matrix (m : matrix) : matrix :=
  (List.range (m.columns - 1)).foldl gauss_step m

/-- The diagonal-product loop of `matrix::determinant`. -/
def diag_prod (m : matrix) : ℚ :=
  (List.range m.rows).foldl (fun acc i => acc * get_element m i i) 1

/-- `matrix::determinant()`: square check throwing NotSquare, then the
product of the diagonal of the upper-triangle form. -/
def determinant (m : matrix) : Except Err ℚ :=
  if m.rows ≠ m.columns then .error .NotSquare
  else .ok (diag_prod (upper_triangle_matrix m))

/-- One entry of `matrix::complements_matrix`:
`minor_matrix(i, j).determinant() * ((i + j) % 2 ? -1 : 1)`. -/
def cofactor (m : matrix) (i j : Nat) : Except Err ℚ := do
  let mm ← minor_matrix m i j
  let d ← determinant mm
  pure (d * (if (i + j) % 2 = 1 then -1 else 1))

/-- `matrix::complements_matrix()`: square check, then each cell of a
fresh rows x columns matrix is filled, in row-major order, with the
corresponding cofactor; a throw from any cell aborts the whole call. -/
def complements_matrix (m : matrix) : Except Err matrix :=
  if m.rows ≠ m.columns then .error .NotSquare
  else
    ((List.range (m.rows * m.columns)).mapM
      (fun idx => cofactor m (idx / m.columns) (idx % m.columns))).map
      (fun l => ⟨m.rows, m.columns, l⟩)

/-- `matrix::inverse()`: computes the determinant (which itself throws
NotSquare on a non-square receiver); when it is nonzero returns
`complements_matrix().transposed() / det`, otherwise throws. -/
def inverse (m : matrix) : Except Err matrix := do
  let det ← determinant m
  if det ≠ 0 then do
    let comp ← complements_matrix m
    pure (div_scalar (transposed comp) det)
  else .error .SingularMatrix

/-- `matrix::set_rows`: zero throws InvalidDimension; otherwise a fresh
rows x columns matrix receives the overlapping region, the rest zero. -/
def set_rows (m : matrix) (rows : Nat) : Except Err matrix :=
  if rows = 0 then .error .InvalidDimension
  else .ok (mkMat rows m.columns (fun i j => if i < m.rows then get_element m i j else 0))

/-- `matrix::set_columns`: the column analogue of `set_rows`. -/
def set_columns (m : matrix) (cols : Nat) : Except Err matrix :=
  if cols = 0 then .error .InvalidDimension
  else .ok (mkMat m.rows cols (fun i j => if j < m.columns then get_element m i j else 0))

/-- Scalar-to-text rendering used by the stream output operators. -/
def render_elem (q : ℚ) : String :=
  toString q

/-- The inner loop of the non-template `operator<<` in math_matrix.cc: a
space is emitted before every element except the first (the `comma`
flag). -/
def cc_row_string (m : matrix) (i : Nat) : String :=
  ((List.range m.columns).foldl
    (fun (p : String × Bool) j =>
      ((if p.2 then p.1 ++ " " else p.1) ++ render_elem (get_element m i j), true))
    ("", false)).1

/-- The non-template `operator<<` of math_matrix.cc: each row is written
as \x5b elements \x5d, with std::endl before every row except the first
(the `endline` flag). -/
def cc_print (m : matrix) : String :=
  ((List.range m.rows).foldl
    (fun (p : String × Bool) i =>
      ((if p.2 then p.1 ++ "\n" else p.1) ++ "[" ++ cc_row_string m i ++ "]", true))
    ("", false)).1

/-- The inner loop of the templated `Matrix<T>::operator<<`: each element
followed by a space unless it is the last column. -/
def tmpl_row_string (m : matrix) (i : Nat) : String :=
  (List.range m.columns).foldl
    (fun s j => s ++ render_elem (get_element m i j) ++ (if j ≠ m.columns - 1 then " " else ""))
    ""

/-- The templated `Matrix<T>::operator<<`: each row is written as
\x7b elements \x7d, followed by std::endl unless it is the last row. -/
def tmpl_print (m : matrix) : String :=
  (List.range m.rows).foldl
    (fun s i => s ++ "\x7b" ++ tmpl_row_string m i ++ "\x7d" ++ (if i ≠ m.rows - 1 then "\n" else ""))
    ""

/-- The common shape of the two inner loops of the elimination: write every
cell of row `t` from its old value and the same column of row `s`. -/
def write_row (g : ℚ → ℚ → ℚ) (t s : Nat) : matrix → Nat → matrix :=
  fun acc i => set_element acc t i (g (get_element acc t i) (get_element acc s i))

/-- The bridge into Mathlib: the n x n matrix of the in-range entries. -/
def toM (n : Nat) (m : matrix) : Matrix (Fin n) (Fin n) ℚ :=
  Matrix.of (fun i j => get_element m i j)

/-- Modelled from the spec, section 4.4 / claim C2: the pivot search —
the first row at or below j with a nonzero entry in column j, if any. -/
def spec_pivot (m : matrix) (j : Nat) : Option Nat :=
  (List.range' j (m.rows - j)).find? (fun r => decide (get_element m r j ≠ 0))

/-- Modelled from the spec: the pivot row is added into row j
(row-addition, not a swap). -/
def spec_row_add (m : matrix) (j p : Nat) : matrix :=
  mkMat m.rows m.columns (fun r c =>
    if r = j then get_element m j c + get_element m p c else get_element m r c)

/-- Modelled from the spec: every row strictly below j whose entry in
column j is nonzero has multiplier = (entry / pivot) times the pivot row
subtracted from it. -/
def spec_elim (m : matrix) (j : Nat) : matrix :=
  mkMat m.rows m.columns (fun r c =>
    if j < r ∧ get_element m r j ≠ 0 then
      get_element m r c - (get_element m r j / get_element m j j) * get_element m j c
    else get_element m r c)

/-- Modelled from the spec: one column step — pivot search; skip the
column when no pivot exists; row-addition when the pivot row differs from
j; then the eliminations below. -/
def spec_step (m : matrix) (j : Nat) : matrix :=
  match spec_pivot m j with
  | none => m
  | some p => spec_elim (if p ≠ j then spec_row_add m j p else m) j

/-- Modelled from the spec: the whole elimination, for each column j from
0 to columns-2. -/
def spec_upper_triangle (m : matrix) : matrix :=
  (List.range (m.columns - 1)).foldl spec_step m

/-- Columns before J have zero entries strictly below the diagonal: the
invariant the elimination establishes column by column. -/
def below_zeroed (m : matrix) (J : Nat) : Prop :=
  ∀ c, c < J → ∀ r, c < r → r < m.rows → get_element m r c = 0

/-- Modelled from the spec, section 6: joining a list of fragments with a
separator between consecutive fragments and no trailing separator. -/
def spec_join (sep : String) : List String → String
  | [] => ""
  | [a] => a
  | a :: b :: rest => a ++ sep ++ spec_join sep (b :: rest)

/-- Modelled from the spec, section 6: each row rendered as an opening
brace, the row's elements separated by single spaces, and a closing brace,
with a line break between consecutive rows. -/
def spec_print (m : matrix) : String :=
  spec_join "\n" ((List.range m.rows).map (fun i =>
    "\x7b" ++ spec_join " " ((List.range m.columns).map (fun j => render_elem (get_element m i j))) ++ "\x7d"))

/-! ### Basic facts about the row-major representation -/

lemma idx_div {C r c : Nat} (hc : c < C) : (C * r + c) / C = r := by
  rw [Nat.mul_add_div (Nat.lt_of_le_of_lt (Nat.zero_le c) hc)]
  rw [Nat.div_eq_of_lt hc]
  omega

lemma idx_mod {C r c : Nat} (hc : c < C) : (C * r + c) % C = c := by
  rw [Nat.mul_add_mod]
  exact Nat.mod_eq_of_lt hc

lemma idx_lt {R C r c : Nat} (hr : r < R) (hc : c < C) : C * r + c < R * C :=
  calc C * r + c < C * (r + 1) := by rw [Nat.mul_succ]; exact Nat.add_lt_add_left hc _
    _ ≤ C * R := Nat.mul_le_mul_left C hr
    _ = R * C := Nat.mul_comm C R

lemma idx_inj {C r c r' c' : Nat} (hc : c < C) (hc' : c' < C)
    (h : C * r + c = C * r' + c') : r = r' ∧ c = c' := by
  constructor
  · have := congrArg (fun x => x / C) h
    simpa [idx_div hc, idx_div hc'] using this
  · have := congrArg (fun x => x % C) h
    simpa [idx_mod hc, idx_mod hc'] using this

lemma get_element_eq_getElem {m : matrix} {r c : Nat}
    (h : m.columns * r + c < m.data.length) :
    get_element m r c = m.data[m.columns * r + c] := by
  unfold get_element
  rw [List.getD_eq_getElem?_getD, List.getElem?_eq_getElem h]
  rfl

lemma set_element_rows (m : matrix) (r c : Nat) (v : ℚ) :
    (set_element m r c v).rows = m.rows := rfl

lemma set_element_columns (m : matrix) (r c : Nat) (v : ℚ) :
    (set_element m r c v).columns = m.columns := rfl

lemma set_element_length (m : matrix) (r c : Nat) (v : ℚ) :
    (set_element m r c v).data.length = m.data.length := by
  simp [set_element]

lemma get_set_element {m : matrix} (hlen : m.data.length = m.rows * m.columns)
    {r c r' c' : Nat} (hr : r < m.rows) (hc : c < m.columns)
    (hr' : r' < m.rows) (hc' : c' < m.columns) (v : ℚ) :
    get_element (set_element m r c v) r' c' =
      if r = r' ∧ c = c' then v else get_element m r' c' := by
  have hidx : m.columns * r + c < m.data.length := by
    rw [hlen]; exact idx_lt hr hc
  by_cases heq : r = r' ∧ c = c'
  · obtain ⟨h1, h2⟩ := heq
    subst h1; subst h2
    rw [if_pos ⟨rfl, rfl⟩]
    show (m.data.set (m.columns * r + c) v).getD (m.columns * r + c) 0 = v
    rw [List.getD_eq_getElem?_getD, List.getElem?_set_self hidx]
    rfl
  · rw [if_neg heq]
    have hne : m.columns * r + c ≠ m.columns * r' + c' := fun h => heq (idx_inj hc hc' h)
    show (m.data.set (m.columns * r + c) v).getD (m.columns * r' + c') 0 =
      m.data.getD (m.columns * r' + c') 0
    rw [List.getD_eq_getElem?_getD, List.getElem?_set_ne hne, ← List.getD_eq_getElem?_getD]

lemma mkMat_rows (r c : Nat) (f : Nat → Nat → ℚ) : (mkMat r c f).rows = r := rfl

lemma mkMat_columns (r c : Nat) (f : Nat → Nat → ℚ) : (mkMat r c f).columns = c := rfl

lemma mkMat_length (r c : Nat) (f : Nat → Nat → ℚ) :
    (mkMat r c f).data.length = r * c := by
  simp [mkMat]

lemma mkMat_wf {r c : Nat} (hr : 1 ≤ r) (hc : 1 ≤ c) (f : Nat → Nat → ℚ) :
    wf (mkMat r c f) :=
  ⟨hr, hc, mkMat_length r c f⟩

lemma get_mkMat {r c i j : Nat} (f : Nat → Nat → ℚ) (hi : i < r) (hj : j < c) :
    get_element (mkMat r c f) i j = f i j := by
  show ((List.range (r * c)).map (fun idx => f (idx / c) (idx % c))).getD (c * i + j) 0 = f i j
  have hlt : c * i + j < r * c := idx_lt hi hj
  rw [List.getD_eq_getElem?_getD, List.getElem?_map]
  rw [List.getElem?_range hlt]
  simp [idx_div hj, idx_mod hj]

lemma matrix_ext {m1 m2 : matrix} (hr : m1.rows = m2.rows) (hc : m1.columns = m2.columns)
    (hl1 : m1.data.length = m1.rows * m1.columns)
    (hl2 : m2.data.length = m2.rows * m2.columns)
    (h : ∀ r, r < m1.rows → ∀ c, c < m1.columns → get_element m1 r c = get_element m2 r c) :
    m1 = m2 := by
  obtain ⟨R, C, d1⟩ := m1
  obtain ⟨R2, C2, d2⟩ := m2
  simp only at hr hc hl1 hl2 h
  subst hr; subst hc
  have hdd : d1 = d2 := by
    apply List.ext_getElem (by rw [hl1, hl2])
    intro i h1 h2
    have hC : 0 < C := by
      rcases Nat.eq_zero_or_pos C with h0 | h0
      · subst h0; simp [hl1] at h1
      · exact h0
    have hdiv : i / C < R := (Nat.div_lt_iff_lt_mul hC).2 (by rw [Nat.mul_comm R C] at hl1; omega)
    have hmod : i % C < C := Nat.mod_lt _ hC
    have hget := h (i / C) hdiv (i % C) hmod
    have he : C * (i / C) + i % C = i := Nat.div_add_mod i C
    rw [get_element_eq_getElem (by simp only; omega),
        get_element_eq_getElem (by simp only; omega)] at hget
    simp only [he] at hget
    exact hget
  rw [hdd]

lemma foldl_dims (F : matrix → Nat → matrix)
    (hF : ∀ acc i, (F acc i).rows = acc.rows ∧ (F acc i).columns = acc.columns ∧
      (F acc i).data.length = acc.data.length)
    (l : List Nat) (m : matrix) :
    (l.foldl F m).rows = m.rows ∧ (l.foldl F m).columns = m.columns ∧
      (l.foldl F m).data.length = m.data.length := by
  induction l generalizing m with
  | nil => exact ⟨rfl, rfl, rfl⟩
  | cons a t ih =>
    simp only [List.foldl_cons]
    obtain ⟨h1, h2, h3⟩ := ih (F m a)
    obtain ⟨g1, g2, g3⟩ := hF m a
    exact ⟨h1.trans g1, h2.trans g2, h3.trans g3⟩

/-! ### Entrywise characterisation of the elimination loops -/

lemma write_row_foldl_dims (g : ℚ → ℚ → ℚ) (t s : Nat) (l : List Nat) (m : matrix) :
    ((l.foldl (write_row g t s) m).rows = m.rows ∧
      (l.foldl (write_row g t s) m).columns = m.columns ∧
      (l.foldl (write_row g t s) m).data.length = m.data.length) :=
  foldl_dims (write_row g t s) (fun acc i => ⟨rfl, rfl, set_element_length acc t i _⟩) l m

lemma get_foldl_write_row (g : ℚ → ℚ → ℚ) {m : matrix}
    (hlen : m.data.length = m.rows * m.columns)
    {t s : Nat} (ht : t < m.rows) (hs : s < m.rows) (hts : t ≠ s) :
    ∀ k, k ≤ m.columns → ∀ r, r < m.rows → ∀ c, c < m.columns →
      get_element ((List.range k).foldl (write_row g t s) m) r c
        = if r = t ∧ c < k then g (get_element m t c) (get_element m s c)
          else get_element m r c := by
  intro k
  induction k with
  | zero =>
    intro _ r hr c hc
    simp [List.range_zero]
  | succ k ih =>
    intro hk r hr c hc
    have hkc : k < m.columns := hk
    rw [List.range_succ, List.foldl_append, List.foldl_cons, List.foldl_nil]
    obtain ⟨hAr, hAc, hAl⟩ := write_row_foldl_dims g t s (List.range k) m
    have hAlen : ((List.range k).foldl (write_row g t s) m).data.length =
        ((List.range k).foldl (write_row g t s) m).rows *
          ((List.range k).foldl (write_row g t s) m).columns := by
      rw [hAr, hAc, hAl, hlen]
    have hgt : get_element ((List.range k).foldl (write_row g t s) m) t k = get_element m t k := by
      rw [ih (Nat.le_of_lt hk) t ht k hkc]
      simp
    have hgs : get_element ((List.range k).foldl (write_row g t s) m) s k = get_element m s k := by
      rw [ih (Nat.le_of_lt hk) s hs k hkc]
      simp [Ne.symm hts]
    show get_element (set_element _ t k _) r c = _
    rw [get_set_element hAlen (by rw [hAr]; exact ht) (by rw [hAc]; exact hkc)
        (by rw [hAr]; exact hr) (by rw [hAc]; exact hc)]
    rw [hgt, hgs, ih (Nat.le_of_lt hk) r hr c hc]
    by_cases h1 : t = r
    · subst h1
      by_cases h2 : k = c
      · subst h2
        simp [Nat.lt_succ_self]
      · have h2n : c ≠ k := Ne.symm h2
        by_cases h3 : c < k
        · simp [h2, h3, Nat.lt_succ_of_lt h3]
        · have h4 : ¬ c < k + 1 := by omega
          simp [h2, h3, h4]
    · have h1n : r ≠ t := Ne.symm h1
      simp [h1, h1n]

lemma row_add_into_dims (m : matrix) (d s : Nat) :
    (row_add_into m d s).rows = m.rows ∧ (row_add_into m d s).columns = m.columns ∧
      (row_add_into m d s).data.length = m.data.length :=
  write_row_foldl_dims (fun a b => a + b) d s (List.range m.columns) m

lemma get_row_add_into {m : matrix} (hlen : m.data.length = m.rows * m.columns)
    {d s : Nat} (hd : d < m.rows) (hs : s < m.rows) (hds : d ≠ s)
    {r c : Nat} (hr : r < m.rows) (hc : c < m.columns) :
    get_element (row_add_into m d s) r c =
      if r = d then get_element m d c + get_element m s c else get_element m r c := by
  have h := get_foldl_write_row (fun a b => a + b) hlen hd hs hds m.columns
    (Nat.le_refl _) r hr c hc
  show get_element ((List.range m.columns).foldl (write_row (fun a b => a + b) d s) m) r c = _
  rw [h]
  by_cases h1 : r = d <;> simp [h1, hc]

lemma elim_row_dims (m : matrix) (i j : Nat) :
    (elim_row m i j).rows = m.rows ∧ (elim_row m i j).columns = m.columns ∧
      (elim_row m i j).data.length = m.data.length :=
  write_row_foldl_dims (fun a b => a - b * (get_element m i j / get_element m j j)) i j
    (List.range m.columns) m

lemma get_elim_row {m : matrix} (hlen : m.data.length = m.rows * m.columns)
    {i j : Nat} (hi : i < m.rows) (hj : j < m.rows) (hij : i ≠ j)
    {r c : Nat} (hr : r < m.rows) (hc : c < m.columns) :
    get_element (elim_row m i j) r c =
      if r = i then
        get_element m i c - get_element m j c * (get_element m i j / get_element m j j)
      else get_element m r c := by
  have h := get_foldl_write_row (fun a b => a - b * (get_element m i j / get_element m j j))
    hlen hi hj hij m.columns (Nat.le_refl _) r hr c hc
  show get_element ((List.range m.columns).foldl
    (write_row (fun a b => a - b * (get_element m i j / get_element m j j)) i j) m) r c = _
  rw [h]
  by_cases h1 : r = i <;> simp [h1, hc]

lemma elim_below_body_dims (j : Nat) :
    ∀ (acc : matrix) (i : Nat),
      ((if get_element acc i j ≠ 0 then elim_row acc i j else acc)).rows = acc.rows ∧
      ((if get_element acc i j ≠ 0 then elim_row acc i j else acc)).columns = acc.columns ∧
      ((if get_element acc i j ≠ 0 then elim_row acc i j else acc)).data.length =
        acc.data.length := by
  intro acc i
  by_cases h : get_element acc i j ≠ 0
  · rw [if_pos h]
    exact elim_row_dims acc i j
  · rw [if_neg h]
    exact ⟨rfl, rfl, rfl⟩

lemma get_elim_below_aux {j : Nat} : ∀ (len a : Nat), j < a →
    ∀ (m : matrix), m.data.length = m.rows * m.columns → a + len ≤ m.rows →
      j < m.columns →
    ∀ r, r < m.rows → ∀ c, c < m.columns →
      get_element ((List.range' a len).foldl
        (fun acc i => if get_element acc i j ≠ 0 then elim_row acc i j else acc) m) r c =
      if a ≤ r ∧ r < a + len ∧ get_element m r j ≠ 0 then
        get_element m r c - get_element m j c * (get_element m r j / get_element m j j)
      else get_element m r c := by
  intro len
  induction len with
  | zero =>
    intro a ha m hlen hb hjc r hr c hc
    have hcond : ¬ (a ≤ r ∧ r < a + 0 ∧ get_element m r j ≠ 0) := by
      rintro ⟨h1, h2, _⟩; omega
    rw [if_neg hcond]
    rfl
  | succ len ih =>
    intro a ha m hlen hb hjc r hr c hc
    rw [List.range'_succ, List.foldl_cons]
    have ha' : a < m.rows := by omega
    have hj' : j < m.rows := by omega
    have haj : a ≠ j := by omega
    by_cases hcond : get_element m a j ≠ 0
    · rw [if_pos hcond]
      obtain ⟨e1, e2, e3⟩ := elim_row_dims m a j
      have hlen1 : (elim_row m a j).data.length =
          (elim_row m a j).rows * (elim_row m a j).columns := by rw [e1, e2, e3, hlen]
      have hb1 : (a + 1) + len ≤ (elim_row m a j).rows := by rw [e1]; omega
      rw [ih (a + 1) (by omega) (elim_row m a j) hlen1 hb1 (by rw [e2]; exact hjc)
        r (by rw [e1]; exact hr) c (by rw [e2]; exact hc)]
      have gjc : get_element (elim_row m a j) j c = get_element m j c := by
        rw [get_elim_row hlen ha' hj' haj hj' hc, if_neg (Ne.symm haj)]
      have gjj : get_element (elim_row m a j) j j = get_element m j j := by
        rw [get_elim_row hlen ha' hj' haj hj' hjc, if_neg (Ne.symm haj)]
      by_cases hra : r = a
      · subst hra
        have grc : get_element (elim_row m r j) r c =
            get_element m r c - get_element m j c * (get_element m r j / get_element m j j) := by
          rw [get_elim_row hlen ha' hj' haj ha' hc, if_pos rfl]
        have hno : ¬ ((r + 1) ≤ r ∧ r < r + 1 + len ∧
            get_element (elim_row m r j) r j ≠ 0) := by
          rintro ⟨h1, _, _⟩; omega
        rw [if_neg hno, grc]
        have hyes : (r ≤ r ∧ r < r + (len + 1) ∧ get_element m r j ≠ 0) :=
          ⟨Nat.le_refl r, by omega, hcond⟩
        rw [if_pos hyes]
      · have grj : get_element (elim_row m a j) r j = get_element m r j := by
          rw [get_elim_row hlen ha' hj' haj hr hjc, if_neg hra]
        have grc : get_element (elim_row m a j) r c = get_element m r c := by
          rw [get_elim_row hlen ha' hj' haj hr hc, if_neg hra]
        rw [grj, grc, gjc, gjj]
        by_cases hfin : a + 1 ≤ r ∧ r < a + 1 + len ∧ get_element m r j ≠ 0
        · rw [if_pos hfin, if_pos ⟨by omega, by omega, hfin.2.2⟩]
        · rw [if_neg hfin]
          have hfin2 : ¬ (a ≤ r ∧ r < a + (len + 1) ∧ get_element m r j ≠ 0) := by
            rintro ⟨h1, h2, h3⟩
            exact hfin ⟨by omega, by omega, h3⟩
          rw [if_neg hfin2]
    · rw [if_neg hcond]
      rw [ih (a + 1) (by omega) m hlen (by omega) hjc r hr c hc]
      push_neg at hcond
      by_cases hra : r = a
      · subst hra
        have h1 : ¬ (r + 1 ≤ r ∧ r < r + 1 + len ∧ get_element m r j ≠ 0) := by
          rintro ⟨h1, _, _⟩; omega
        have h2 : ¬ (r ≤ r ∧ r < r + (len + 1) ∧ get_element m r j ≠ 0) := by
          rintro ⟨_, _, h3⟩; exact h3 hcond
        rw [if_neg h1, if_neg h2]
      · by_cases hfin : a + 1 ≤ r ∧ r < a + 1 + len ∧ get_element m r j ≠ 0
        · rw [if_pos hfin, if_pos ⟨by omega, by omega, hfin.2.2⟩]
        · rw [if_neg hfin]
          have hfin2 : ¬ (a ≤ r ∧ r < a + (len + 1) ∧ get_element m r j ≠ 0) := by
            rintro ⟨h1, h2, h3⟩
            exact hfin ⟨by omega, by omega, h3⟩
          rw [if_neg hfin2]

lemma elim_below_dims (m : matrix) (j : Nat) :
    (elim_below m j).rows = m.rows ∧ (elim_below m j).columns = m.columns ∧
      (elim_below m j).data.length = m.data.length :=
  foldl_dims (fun acc i => if get_element acc i j ≠ 0 then elim_row acc i j else acc)
    (elim_below_body_dims j) (List.range' (j + 1) (m.rows - (j + 1))) m

lemma get_elim_below {m : matrix} (hlen : m.data.length = m.rows * m.columns)
    {j : Nat} (hj : j < m.rows) (hjc : j < m.columns)
    {r c : Nat} (hr : r < m.rows) (hc : c < m.columns) :
    get_element (elim_below m j) r c =
      if j < r ∧ get_element m r j ≠ 0 then
        get_element m r c - get_element m j c * (get_element m r j / get_element m j j)
      else get_element m r c := by
  unfold elim_below
  rw [get_elim_below_aux (m.rows - (j + 1)) (j + 1) (Nat.lt_succ_self j) m hlen (by omega)
    hjc r hr c hc]
  by_cases h1 : j < r ∧ get_element m r j ≠ 0
  · rw [if_pos ⟨by omega, by omega, h1.2⟩, if_pos h1]
  · rw [if_neg ?hcnd, if_neg h1]
    rintro ⟨hh1, hh2, hh3⟩
    exact h1 ⟨by omega, hh3⟩

/-! ### The pivot search -/

lemma fnzr_go_ge (m : matrix) (col : Nat) : ∀ fuel fr, fr ≤ fnzr_go m col fuel fr := by
  intro fuel
  induction fuel with
  | zero => intro fr; exact Nat.le_refl fr
  | succ fuel ih =>
    intro fr
    simp only [fnzr_go]
    split
    · exact Nat.le_trans (Nat.le_succ fr) (ih (fr + 1))
    · exact Nat.le_refl fr

lemma fnzr_go_nonzero (m : matrix) (col : Nat) : ∀ fuel fr, m.rows ≤ fuel + fr →
    fnzr_go m col fuel fr < m.rows → get_element m (fnzr_go m col fuel fr) col ≠ 0 := by
  intro fuel
  induction fuel with
  | zero =>
    intro fr hfuel hlt
    simp only [fnzr_go] at hlt ⊢
    omega
  | succ fuel ih =>
    intro fr hfuel hlt
    simp only [fnzr_go] at hlt ⊢
    by_cases h : get_element m fr col = 0 ∧ fr < m.rows
    · rw [if_pos h] at hlt ⊢
      exact ih (fr + 1) (by omega) hlt
    · rw [if_neg h] at hlt ⊢
      intro hzero
      exact h ⟨hzero, hlt⟩

lemma fnzr_go_zero_before (m : matrix) (col : Nat) : ∀ fuel fr r, fr ≤ r →
    r < fnzr_go m col fuel fr → r < m.rows → get_element m r col = 0 := by
  intro fuel
  induction fuel with
  | zero =>
    intro fr r h1 h2 _
    simp only [fnzr_go] at h2
    omega
  | succ fuel ih =>
    intro fr r h1 h2 h3
    simp only [fnzr_go] at h2
    by_cases h : get_element m fr col = 0 ∧ fr < m.rows
    · rw [if_pos h] at h2
      rcases Nat.eq_or_lt_of_le h1 with heq | hlt
      · rw [← heq]; exact h.1
      · exact ih (fr + 1) r hlt h2 h3
    · rw [if_neg h] at h2
      omega

lemma find_not_zero_row_ge (m : matrix) (fr col : Nat) :
    fr ≤ find_not_zero_row m fr col :=
  fnzr_go_ge m col (m.rows + 1 - fr) fr

lemma find_not_zero_row_nonzero {m : matrix} {fr col : Nat}
    (h : find_not_zero_row m fr col < m.rows) :
    get_element m (find_not_zero_row m fr col) col ≠ 0 :=
  fnzr_go_nonzero m col (m.rows + 1 - fr) fr (by omega) h

lemma find_not_zero_row_zero_before {m : matrix} {fr col r : Nat} (h1 : fr ≤ r)
    (h2 : r < find_not_zero_row m fr col) (h3 : r < m.rows) :
    get_element m r col = 0 :=
  fnzr_go_zero_before m col (m.rows + 1 - fr) fr r h1 h2 h3

lemma find_not_zero_row_all_zero {m : matrix} {fr col : Nat}
    (h : m.rows ≤ find_not_zero_row m fr col) :
    ∀ r, fr ≤ r → r < m.rows → get_element m r col = 0 :=
  fun r hr1 hr2 => find_not_zero_row_zero_before hr1 (Nat.lt_of_lt_of_le hr2 h) hr2

/-! ### The column step and the whole elimination -/

lemma gauss_step_dims (m : matrix) (j : Nat) :
    (gauss_step m j).rows = m.rows ∧ (gauss_step m j).columns = m.columns ∧
      (gauss_step m j).data.length = m.data.length := by
  unfold gauss_step
  by_cases h : m.rows ≤ find_not_zero_row m j j
  · rw [if_pos h]
    exact ⟨rfl, rfl, rfl⟩
  · rw [if_neg h]
    by_cases h2 : find_not_zero_row m j j ≠ j
    · rw [if_pos h2]
      obtain ⟨a1, a2, a3⟩ := row_add_into_dims m j (find_not_zero_row m j j)
      obtain ⟨b1, b2, b3⟩ := elim_below_dims (row_add_into m j (find_not_zero_row m j j)) j
      exact ⟨b1.trans a1, b2.trans a2, b3.trans a3⟩
    · rw [if_neg h2]
      exact elim_below_dims m j

lemma upper_triangle_dims (m : matrix) :
    (upper_triangle_matrix m).rows = m.rows ∧
      (upper_triangle_matrix m).columns = m.columns ∧
      (upper_triangle_matrix m).data.length = m.data.length :=
  foldl_dims gauss_step gauss_step_dims (List.range (m.columns - 1)) m

lemma upper_triangle_wf {m : matrix} (h : wf m) : wf (upper_triangle_matrix m) := by
  obtain ⟨d1, d2, d3⟩ := upper_triangle_dims m
  exact ⟨by rw [d1]; exact h.1, by rw [d2]; exact h.2.1, by rw [d1, d2, d3]; exact h.2.2⟩

/-- Entries of the matrix the column step works on, before the
eliminations: row j may have absorbed the pivot row. -/
lemma gauss_step_m1_facts {m : matrix} (hlen : m.data.length = m.rows * m.columns)
    {j p : Nat} (hjc : j < m.columns) (hpd : p = find_not_zero_row m j j)
    (hp : p < m.rows) {m1 : matrix} (hm1d : m1 = if p ≠ j then row_add_into m j p else m) :
    (m1.rows = m.rows ∧ m1.columns = m.columns ∧ m1.data.length = m.data.length) ∧
    (∀ r c, r < m.rows → c < m.columns → r ≠ j → get_element m1 r c = get_element m r c) ∧
    (∀ c, c < m.columns → get_element m1 j c =
      (if p ≠ j then get_element m j c + get_element m p c else get_element m j c)) ∧
    get_element m1 j j ≠ 0 := by
  have hjp : j ≤ p := hpd ▸ find_not_zero_row_ge m j j
  have hjr : j < m.rows := Nat.lt_of_le_of_lt hjp hp
  have hnz : get_element m p j ≠ 0 := by
    rw [hpd]
    exact find_not_zero_row_nonzero (hpd ▸ hp)
  by_cases hpj : p ≠ j
  · have hjlt : j < p := Nat.lt_of_le_of_ne hjp (fun h => hpj h.symm)
    have hm1 : m1 = row_add_into m j p := by rw [hm1d, if_pos hpj]
    have hdims := row_add_into_dims m j p
    refine ⟨by rw [hm1]; exact hdims, ?_, ?_, ?_⟩
    · intro r c hr hc hrj
      rw [hm1, get_row_add_into hlen hjr hp (Nat.ne_of_lt hjlt) hr hc, if_neg hrj]
    · intro c hc
      rw [hm1, get_row_add_into hlen hjr hp (by omega) hjr hc, if_pos rfl, if_pos hpj]
    · have hzero : get_element m j j = 0 := by
        rw [hpd] at hjlt
        exact find_not_zero_row_zero_before (Nat.le_refl j) hjlt hjr
      rw [hm1, get_row_add_into hlen hjr hp (by omega) hjr hjc, if_pos rfl, hzero, zero_add]
      exact hnz
  · have hm1 : m1 = m := by rw [hm1d, if_neg hpj]
    push_neg at hpj
    refine ⟨by rw [hm1]; exact ⟨rfl, rfl, rfl⟩, ?_, ?_, ?_⟩
    · intro r c _ _ _; rw [hm1]
    · intro c hc
      rw [hm1, if_neg (by push_neg; exact hpj)]
    · rw [hm1]
      rw [hpj] at hnz
      exact hnz

lemma gauss_step_tri_core {m : matrix} (hlen : m.data.length = m.rows * m.columns)
    {j p : Nat} (hjc : j < m.columns) (hpd : p = find_not_zero_row m j j)
    (hp : p < m.rows) {m1 : matrix}
    (hm1d : m1 = if p ≠ j then row_add_into m j p else m)
    (hTri : below_zeroed m j) : below_zeroed (elim_below m1 j) (j + 1) := by
  obtain ⟨⟨d1, d2, d3⟩, hother, hrowj, hdiag⟩ := gauss_step_m1_facts hlen hjc hpd hp hm1d
  have hjp : j ≤ p := hpd ▸ find_not_zero_row_ge m j j
  have hjr : j < m.rows := Nat.lt_of_le_of_lt hjp hp
  have hlen1 : m1.data.length = m1.rows * m1.columns := by rw [d1, d2, d3, hlen]
  have hm1zero : ∀ c, c < j → ∀ r, c < r → r < m.rows → get_element m1 r c = 0 := by
    intro c hc r hcr hrr
    by_cases hrj : r = j
    · rw [hrj, hrowj c (Nat.lt_trans hc hjc)]
      by_cases hpj : p ≠ j
      · rw [if_pos hpj, hTri c hc j hc hjr, hTri c hc p (by omega) hp, add_zero]
      · rw [if_neg hpj]
        exact hTri c hc j hc hjr
    · rw [hother r c hrr (Nat.lt_trans hc hjc) hrj]
      exact hTri c hc r hcr hrr
  obtain ⟨e1, e2, e3⟩ := elim_below_dims m1 j
  intro c hc r hcr hrr
  rw [e1, d1] at hrr
  have hget := get_elim_below hlen1 (by rw [d1]; exact hjr) (by rw [d2]; exact hjc)
    (show r < m1.rows by rw [d1]; exact hrr)
    (show c < m1.columns by rw [d2]; exact Nat.lt_of_lt_of_le hc hjc)
  rcases Nat.lt_or_ge c j with hlt | hge
  · rw [hget]
    have hz1 : get_element m1 r c = 0 := hm1zero c hlt r hcr hrr
    have hz2 : get_element m1 j c = 0 := hm1zero c hlt j hlt hjr
    split
    · rw [hz1, hz2, zero_mul, sub_zero]
    · exact hz1
  · have hcj : c = j := by omega
    subst hcj
    rw [hget]
    split
    · rw [mul_comm, div_mul_cancel₀ _ hdiag, sub_self]
    · rename_i hcond
      push_neg at hcond
      exact hcond hcr

lemma gauss_step_tri {m : matrix} (hlen : m.data.length = m.rows * m.columns)
    {j : Nat} (hjc : j < m.columns) (hTri : below_zeroed m j) :
    below_zeroed (gauss_step m j) (j + 1) := by
  by_cases hp : m.rows ≤ find_not_zero_row m j j
  · have hstep : gauss_step m j = m := by
      unfold gauss_step
      rw [if_pos hp]
    rw [hstep]
    intro c hc r hcr hrr
    rcases Nat.lt_or_ge c j with hlt | hge
    · exact hTri c hlt r hcr hrr
    · have hcj : c = j := by omega
      subst hcj
      exact find_not_zero_row_all_zero hp r (by omega) hrr
  · push_neg at hp
    have hstep : gauss_step m j =
        elim_below (if find_not_zero_row m j j ≠ j
          then row_add_into m j (find_not_zero_row m j j) else m) j := by
      unfold gauss_step
      rw [if_neg (by omega)]
    rw [hstep]
    exact gauss_step_tri_core hlen hjc rfl hp rfl hTri

lemma gauss_fold_tri {m : matrix} (hlen : m.data.length = m.rows * m.columns) :
    ∀ k, k ≤ m.columns → below_zeroed ((List.range k).foldl gauss_step m) k := by
  intro k
  induction k with
  | zero =>
    intro _ c hc
    omega
  | succ k ih =>
    intro hk
    rw [List.range_succ, List.foldl_append, List.foldl_cons, List.foldl_nil]
    obtain ⟨f1, f2, f3⟩ := foldl_dims gauss_step gauss_step_dims (List.range k) m
    have hlenk : ((List.range k).foldl gauss_step m).data.length =
        ((List.range k).foldl gauss_step m).rows *
          ((List.range k).foldl gauss_step m).columns := by
      rw [f1, f2, f3, hlen]
    have htri := gauss_step_tri hlenk (by rw [f2]; omega) (ih (by omega))
    obtain ⟨g1, g2, g3⟩ := gauss_step_dims ((List.range k).foldl gauss_step m) k
    exact htri

/-- Every column the loop has processed ends with zeros strictly below the
diagonal; since the loop runs to columns-2, that is `below_zeroed` at
`columns - 1`. -/
lemma upper_triangle_below_zeroed {m : matrix} (h : wf m) :
    below_zeroed (upper_triangle_matrix m) (m.columns - 1) := by
  unfold upper_triangle_matrix
  exact gauss_fold_tri h.2.2 (m.columns - 1) (by omega)

/-! ### The source elimination coincides with the spec's description -/

lemma find?_range' (p : Nat → Bool) : ∀ (len a t : Nat), a ≤ t → t < a + len →
    p t = true → (∀ r, a ≤ r → r < t → p r = false) →
    (List.range' a len).find? p = some t := by
  intro len
  induction len with
  | zero => intro a t h1 h2; omega
  | succ len ih =>
    intro a t h1 h2 h3 h4
    rw [List.range'_succ]
    rcases Nat.eq_or_lt_of_le h1 with heq | hlt
    · rw [List.find?_cons_of_pos _ (by rw [heq]; exact h3), heq]
    · rw [List.find?_cons_of_neg _ (by rw [h4 a (Nat.le_refl a) hlt]; exact Bool.false_ne_true)]
      exact ih (a + 1) t hlt (by omega) h3 (fun r hr1 hr2 => h4 r (by omega) hr2)

lemma spec_pivot_none {m : matrix} {j : Nat}
    (h : m.rows ≤ find_not_zero_row m j j) : spec_pivot m j = none := by
  unfold spec_pivot
  rw [List.find?_eq_none]
  intro x hx
  rw [List.mem_range'] at hx
  obtain ⟨i, hilt, hxe⟩ := hx
  simp only [decide_eq_true_eq, Decidable.not_not]
  exact find_not_zero_row_all_zero h x (by omega) (by omega)

lemma spec_pivot_some {m : matrix} {j : Nat}
    (h : find_not_zero_row m j j < m.rows) :
    spec_pivot m j = some (find_not_zero_row m j j) := by
  unfold spec_pivot
  have hjp : j ≤ find_not_zero_row m j j := find_not_zero_row_ge m j j
  apply find?_range' _ (m.rows - j) j (find_not_zero_row m j j) hjp (by omega)
  · simp only [decide_eq_true_eq]
    exact find_not_zero_row_nonzero h
  · intro r hr1 hr2
    simp only [decide_eq_false_iff_not, Decidable.not_not]
    exact find_not_zero_row_zero_before hr1 hr2 (by omega)

lemma row_add_into_eq_spec {m : matrix} (hlen : m.data.length = m.rows * m.columns)
    {j p : Nat} (hj : j < m.rows) (hp : p < m.rows) (hjp : j ≠ p) :
    row_add_into m j p = spec_row_add m j p := by
  obtain ⟨a1, a2, a3⟩ := row_add_into_dims m j p
  apply matrix_ext (by rw [a1]; rfl) (by rw [a2]; rfl)
    (by rw [a1, a2, a3, hlen]) (by simp [spec_row_add, mkMat_length, mkMat_rows, mkMat_columns])
  intro r hr c hc
  rw [a1] at hr
  rw [a2] at hc
  rw [get_row_add_into hlen hj hp hjp hr hc]
  unfold spec_row_add
  rw [get_mkMat _ hr hc]

lemma elim_below_eq_spec {m : matrix} (hlen : m.data.length = m.rows * m.columns)
    {j : Nat} (hj : j < m.rows) (hjc : j < m.columns) :
    elim_below m j = spec_elim m j := by
  obtain ⟨e1, e2, e3⟩ := elim_below_dims m j
  apply matrix_ext (by rw [e1]; rfl) (by rw [e2]; rfl)
    (by rw [e1, e2, e3, hlen]) (by simp [spec_elim, mkMat_length, mkMat_rows, mkMat_columns])
  intro r hr c hc
  rw [e1] at hr
  rw [e2] at hc
  rw [get_elim_below hlen hj hjc hr hc]
  unfold spec_elim
  rw [get_mkMat _ hr hc]
  by_cases hcond : j < r ∧ get_element m r j ≠ 0
  · rw [if_pos hcond, if_pos hcond, mul_comm]
  · rw [if_neg hcond, if_neg hcond]

lemma gauss_step_eq_spec {m : matrix} (h : wf m) {j : Nat} (hjc : j < m.columns) :
    gauss_step m j = spec_step m j := by
  by_cases hp : m.rows ≤ find_not_zero_row m j j
  · have hstep : gauss_step m j = m := by
      unfold gauss_step
      rw [if_pos hp]
    rw [hstep]
    unfold spec_step
    rw [spec_pivot_none hp]
  · push_neg at hp
    have hjp : j ≤ find_not_zero_row m j j := find_not_zero_row_ge m j j
    have hjr : j < m.rows := by omega
    have hstep : gauss_step m j =
        elim_below (if find_not_zero_row m j j ≠ j
          then row_add_into m j (find_not_zero_row m j j) else m) j := by
      unfold gauss_step
      rw [if_neg (by omega)]
    rw [hstep]
    have hspec : spec_step m j =
        spec_elim (if find_not_zero_row m j j ≠ j
          then spec_row_add m j (find_not_zero_row m j j) else m) j := by
      unfold spec_step
      rw [spec_pivot_some hp]
    rw [hspec]
    by_cases hpj : find_not_zero_row m j j ≠ j
    · rw [if_pos hpj, if_pos hpj]
      have hadd := row_add_into_eq_spec h.2.2 hjr hp (fun hh => hpj hh.symm)
      rw [hadd]
      obtain ⟨a1, a2, a3⟩ := row_add_into_dims m j (find_not_zero_row m j j)
      rw [← hadd]
      exact elim_below_eq_spec (by rw [a1, a2, a3, h.2.2]) (by rw [a1]; exact hjr)
        (by rw [a2]; exact hjc)
    · rw [if_neg hpj, if_neg hpj]
      exact elim_below_eq_spec h.2.2 hjr hjc

lemma upper_triangle_eq_spec_aux {m : matrix} (h : wf m) :
    ∀ k, k ≤ m.columns →
      (List.range k).foldl gauss_step m = (List.range k).foldl spec_step m := by
  intro k
  induction k with
  | zero => intro _; rfl
  | succ k ih =>
    intro hk
    rw [List.range_succ, List.foldl_append, List.foldl_append,
      List.foldl_cons, List.foldl_cons, List.foldl_nil, List.foldl_nil]
    rw [← ih (by omega)]
    obtain ⟨f1, f2, f3⟩ := foldl_dims gauss_step gauss_step_dims (List.range k) m
    have hwf : wf ((List.range k).foldl gauss_step m) :=
      ⟨by rw [f1]; exact h.1, by rw [f2]; exact h.2.1, by rw [f1, f2, f3]; exact h.2.2⟩
    exact gauss_step_eq_spec hwf (by rw [f2]; omega)

/-- The source elimination is exactly the spec's column-by-column
description. -/
lemma upper_triangle_eq_spec {m : matrix} (h : wf m) :
    upper_triangle_matrix m = spec_upper_triangle m :=
  upper_triangle_eq_spec_aux h (m.columns - 1) (by omega)

/-! ### The Gaussian determinant equals the Mathlib determinant -/

lemma toM_apply (n : Nat) (m : matrix) (i j : Fin n) :
    toM n m i j = get_element m i j := rfl

lemma toM_row_add {m : matrix} (hlen : m.data.length = m.rows * m.columns)
    {n j p : Nat} (hrn : m.rows = n) (hcn : m.columns = n)
    (hj : j < n) (hp : p < n) (hjp : j ≠ p) :
    toM n (row_add_into m j p) =
      (toM n m).updateRow ⟨j, hj⟩ (toM n m ⟨j, hj⟩ + toM n m ⟨p, hp⟩) := by
  ext a b
  rw [Matrix.updateRow_apply]
  rw [toM_apply, get_row_add_into hlen (by omega) (by omega) hjp
    (by rw [hrn]; exact a.isLt) (by rw [hcn]; exact b.isLt)]
  by_cases ha : (a : Nat) = j
  · rw [if_pos ha, if_pos (by apply Fin.ext; exact ha)]
    simp only [Pi.add_apply, toM_apply, ha]
  · rw [if_neg ha, if_neg (by intro hh; exact ha (by rw [hh])), toM_apply]

lemma toM_elim_row {m : matrix} (hlen : m.data.length = m.rows * m.columns)
    {n i j : Nat} (hrn : m.rows = n) (hcn : m.columns = n)
    (hi : i < n) (hj : j < n) (hij : i ≠ j) :
    toM n (elim_row m i j) =
      (toM n m).updateRow ⟨i, hi⟩ (toM n m ⟨i, hi⟩ +
        (-(get_element m i j / get_element m j j)) • toM n m ⟨j, hj⟩) := by
  ext a b
  rw [Matrix.updateRow_apply]
  rw [toM_apply, get_elim_row hlen (by omega) (by omega) hij
    (by rw [hrn]; exact a.isLt) (by rw [hcn]; exact b.isLt)]
  by_cases ha : (a : Nat) = i
  · rw [if_pos ha, if_pos (by apply Fin.ext; exact ha)]
    simp only [Pi.add_apply, Pi.smul_apply, toM_apply, smul_eq_mul, ha]
    ring
  · rw [if_neg ha, if_neg (by intro hh; exact ha (by rw [hh])), toM_apply]

lemma elim_fold_det {j n : Nat} (hjn : j < n) :
    ∀ (l : List Nat) (m1 : matrix), m1.rows = n → m1.columns = n →
      m1.data.length = m1.rows * m1.columns → (∀ i ∈ l, j < i ∧ i < n) →
      (toM n (l.foldl
        (fun acc i => if get_element acc i j ≠ 0 then elim_row acc i j else acc) m1)).det =
        (toM n m1).det := by
  intro l
  induction l with
  | nil => intro m1 _ _ _ _; rfl
  | cons i t ih =>
    intro m1 hr hc hlen hmem
    obtain ⟨hji, hin⟩ := hmem i (List.mem_cons_self i t)
    rw [List.foldl_cons]
    by_cases hcond : get_element m1 i j ≠ 0
    · rw [if_pos hcond]
      obtain ⟨e1, e2, e3⟩ := elim_row_dims m1 i j
      rw [ih (elim_row m1 i j) (by rw [e1, hr]) (by rw [e2, hc])
        (by rw [e1, e2, e3, hlen]) (fun x hx => hmem x (List.mem_cons_of_mem i hx))]
      rw [toM_elim_row hlen hr hc hin hjn (by omega)]
      exact Matrix.det_updateRow_add_smul_self (toM n m1)
        (by simp only [ne_eq, Fin.mk.injEq]; omega) _
    · rw [if_neg hcond]
      exact ih m1 hr hc hlen (fun x hx => hmem x (List.mem_cons_of_mem i hx))

lemma gauss_det_core {m : matrix} (hlen : m.data.length = m.rows * m.columns)
    {n j p : Nat} (hrn : m.rows = n) (hcn : m.columns = n) (hjn : j < n)
    (hpd : p = find_not_zero_row m j j) (hp : p < m.rows) {m1 : matrix}
    (hm1d : m1 = if p ≠ j then row_add_into m j p else m) :
    (toM n (elim_below m1 j)).det = (toM n m).det := by
  have hjp : j ≤ p := hpd ▸ find_not_zero_row_ge m j j
  have hd1 : m1.rows = m.rows ∧ m1.columns = m.columns ∧ m1.data.length = m.data.length := by
    by_cases hpj : p ≠ j
    · rw [hm1d, if_pos hpj]; exact row_add_into_dims m j p
    · rw [hm1d, if_neg hpj]; exact ⟨rfl, rfl, rfl⟩
  obtain ⟨d1, d2, d3⟩ := hd1
  have hdet1 : (toM n m1).det = (toM n m).det := by
    by_cases hpj : p ≠ j
    · rw [hm1d, if_pos hpj]
      rw [toM_row_add hlen hrn hcn hjn (by omega) (fun hh => hpj hh.symm)]
      exact Matrix.det_updateRow_add_self (toM n m)
        (by simp only [ne_eq, Fin.mk.injEq]; omega)
    · rw [hm1d, if_neg hpj]
  rw [← hdet1]
  unfold elim_below
  apply elim_fold_det hjn _ m1 (by rw [d1, hrn]) (by rw [d2, hcn])
    (by rw [d1, d2, d3, hlen])
  intro x hx
  rw [List.mem_range'] at hx
  obtain ⟨i, hilt, hxe⟩ := hx
  constructor
  · omega
  · rw [d1, hrn] at *
    omega

lemma gauss_step_det {m : matrix} (hlen : m.data.length = m.rows * m.columns)
    {n : Nat} (hrn : m.rows = n) (hcn : m.columns = n) {j : Nat} (hjn : j < n) :
    (toM n (gauss_step m j)).det = (toM n m).det := by
  by_cases hp : m.rows ≤ find_not_zero_row m j j
  · have hstep : gauss_step m j = m := by
      unfold gauss_step
      rw [if_pos hp]
    rw [hstep]
  · push_neg at hp
    have hstep : gauss_step m j =
        elim_below (if find_not_zero_row m j j ≠ j
          then row_add_into m j (find_not_zero_row m j j) else m) j := by
      unfold gauss_step
      rw [if_neg (by omega)]
    rw [hstep]
    exact gauss_det_core hlen hrn hcn hjn rfl hp rfl

lemma upper_triangle_det {m : matrix} (h : wf m) {n : Nat}
    (hrn : m.rows = n) (hcn : m.columns = n) :
    (toM n (upper_triangle_matrix m)).det = (toM n m).det := by
  unfold upper_triangle_matrix
  have haux : ∀ k, k ≤ m.columns - 1 →
      (toM n ((List.range k).foldl gauss_step m)).det = (toM n m).det := by
    intro k
    induction k with
    | zero => intro _; rfl
    | succ k ih =>
      intro hk
      rw [List.range_succ, List.foldl_append, List.foldl_cons, List.foldl_nil]
      obtain ⟨f1, f2, f3⟩ := foldl_dims gauss_step gauss_step_dims (List.range k) m
      rw [gauss_step_det (by rw [f1, f2, f3]; exact h.2.2) (by rw [f1]; exact hrn)
        (by rw [f2]; exact hcn) (by omega : k < n)]
      exact ih (by omega)
  exact haux (m.columns - 1) (Nat.le_refl _)

lemma foldl_mul_prod (f : Nat → ℚ) : ∀ k : Nat,
    (List.range k).foldl (fun acc i => acc * f i) 1 = ∏ i ∈ Finset.range k, f i := by
  intro k
  induction k with
  | zero => simp
  | succ k ih =>
    rw [List.range_succ, List.foldl_append, List.foldl_cons, List.foldl_nil,
      Finset.prod_range_succ, ih]

lemma diag_prod_eq_prod {m : matrix} (n : Nat) (hrn : m.rows = n) :
    diag_prod m = ∏ i : Fin n, toM n m i i := by
  unfold diag_prod
  rw [hrn, foldl_mul_prod (fun i => get_element m i i) n]
  rw [← Fin.prod_univ_eq_prod_range (fun i => get_element m i i) n]
  rfl

/-- The product of the diagonal of the eliminated matrix is the true
determinant: the row operations the source performs preserve it, and the
result is upper triangular. -/
lemma diag_prod_upper_eq_det {m : matrix} (h : wf m) {n : Nat}
    (hrn : m.rows = n) (hcn : m.columns = n) :
    diag_prod (upper_triangle_matrix m) = (toM n m).det := by
  obtain ⟨u1, u2, u3⟩ := upper_triangle_dims m
  rw [diag_prod_eq_prod n (by rw [u1]; exact hrn)]
  have htri : (toM n (upper_triangle_matrix m)).BlockTriangular id := by
    intro i j hji
    simp only [id_eq] at hji
    rw [Fin.lt_def] at hji
    have hi := i.isLt
    have hj := j.isLt
    have hz := upper_triangle_below_zeroed h
    rw [toM_apply]
    exact hz j (by omega) i hji (by rw [u1, hrn]; exact i.isLt)
  rw [← upper_triangle_det h hrn hcn, Matrix.det_of_upperTriangular htri]

/-! ### Determinant, minors, cofactors: the bridge to the adjugate -/

lemma ok_bind {e a b : Type} (x : a) (f : a → Except e b) :
    (Except.ok x >>= f : Except e b) = f x := rfl

lemma determinant_ok {m : matrix} (h : wf m) (n : Nat)
    (hrn : m.rows = n) (hcn : m.columns = n) :
    determinant m = .ok ((toM n m).det) := by
  unfold determinant
  rw [if_neg (by rw [hrn, hcn]; simp)]
  rw [diag_prod_upper_eq_det h hrn hcn]

lemma determinant_not_square {m : matrix} (hne : m.rows ≠ m.columns) :
    determinant m = .error .NotSquare := by
  unfold determinant
  rw [if_pos hne]

lemma succAbove_coe {k : Nat} (p : Fin (k + 1)) (a : Fin k) :
    ((p.succAbove a : Fin (k + 1)) : Nat) = if (a : Nat) < (p : Nat) then (a : Nat) else (a : Nat) + 1 := by
  unfold Fin.succAbove
  by_cases hlt : (a : Nat) < (p : Nat)
  · rw [if_pos (by rw [Fin.lt_def]; exact hlt), if_pos hlt]
    rfl
  · rw [if_neg (by rw [Fin.lt_def]; exact hlt), if_neg hlt]
    rfl

lemma minor_ok {m : matrix} {k : Nat} (hrn : m.rows = k + 1) (hcn : m.columns = k + 1)
    (hk : 1 ≤ k) {i j : Nat} (hi : i < k + 1) (hj : j < k + 1) :
    minor_matrix m i j = .ok (mkMat (m.rows - 1) (m.columns - 1) (fun im jm =>
      get_element m (if im < i then im else im + 1) (if jm < j then jm else jm + 1))) := by
  unfold minor_matrix
  rw [if_neg (by omega), if_neg (by omega)]

lemma toM_minor {m : matrix} (h : wf m) {k : Nat} (hrn : m.rows = k + 1)
    (hcn : m.columns = k + 1) {i j : Nat} (hi : i < k + 1) (hj : j < k + 1) :
    toM k (mkMat (m.rows - 1) (m.columns - 1) (fun im jm =>
      get_element m (if im < i then im else im + 1) (if jm < j then jm else jm + 1))) =
    (toM (k + 1) m).submatrix (Fin.succAbove ⟨i, hi⟩) (Fin.succAbove ⟨j, hj⟩) := by
  ext a b
  rw [toM_apply, Matrix.submatrix_apply, toM_apply]
  have hget := get_mkMat (r := m.rows - 1) (c := m.columns - 1)
    (fun im jm => get_element m (if im < i then im else im + 1) (if jm < j then jm else jm + 1))
    (show (a : Nat) < m.rows - 1 by rw [hrn]; simpa using a.isLt)
    (show (b : Nat) < m.columns - 1 by rw [hcn]; simpa using b.isLt)
  rw [hget]
  rw [succAbove_coe ⟨i, hi⟩ a, succAbove_coe ⟨j, hj⟩ b]

lemma sign_eq (i j : Nat) :
    (if (i + j) % 2 = 1 then (-1 : ℚ) else 1) = (-1 : ℚ) ^ (i + j) := by
  rcases Nat.even_or_odd (i + j) with he | ho
  · rw [if_neg (by rw [Nat.even_iff] at he; omega), he.neg_one_pow]
  · rw [if_pos (by rwa [Nat.odd_iff] at ho), ho.neg_one_pow]

lemma cofactor_ok {m : matrix} (h : wf m) {k : Nat} (hrn : m.rows = k + 1)
    (hcn : m.columns = k + 1) (hk : 1 ≤ k) {i j : Nat} (hi : i < k + 1) (hj : j < k + 1) :
    cofactor m i j = .ok (Matrix.adjugate (toM (k + 1) m) ⟨j, hj⟩ ⟨i, hi⟩) := by
  unfold cofactor
  rw [minor_ok hrn hcn hk hi hj]
  have hmwf : wf (mkMat (m.rows - 1) (m.columns - 1) (fun im jm =>
      get_element m (if im < i then im else im + 1) (if jm < j then jm else jm + 1))) :=
    mkMat_wf (by omega) (by omega) _
  rw [ok_bind]
  rw [determinant_ok hmwf k (by rw [mkMat_rows]; omega) (by rw [mkMat_columns]; omega)]
  rw [ok_bind]
  rw [toM_minor h hrn hcn hi hj]
  have hadj := Matrix.adjugate_fin_succ_eq_det_submatrix (toM (k + 1) m) ⟨j, hj⟩ ⟨i, hi⟩
  show Except.ok (_ * (if (i + j) % 2 = 1 then (-1 : ℚ) else 1)) = _
  rw [sign_eq, hadj]
  congr 1
  simp only []
  rw [mul_comm]

lemma mapM_ok {e a b : Type} (f : a → Except e b) (g : a → b) :
    ∀ l : List a, (∀ x ∈ l, f x = .ok (g x)) → l.mapM f = .ok (l.map g) := by
  intro l
  induction l with
  | nil => intro _; rfl
  | cons x t ih =>
    intro hall
    rw [List.mapM_cons, hall x (List.mem_cons_self x t), ok_bind,
      ih (fun y hy => hall y (List.mem_cons_of_mem x hy)), ok_bind, List.map_cons]
    rfl

lemma complements_ok {m : matrix} (h : wf m) {k : Nat} (hrn : m.rows = k + 1)
    (hcn : m.columns = k + 1) (hk : 1 ≤ k) :
    complements_matrix m = .ok (mkMat m.rows m.columns
      (fun i j => (cofactor m i j).toOption.getD 0)) ∧
    ∀ (i j : Nat) (hi : i < k + 1) (hj : j < k + 1),
      get_element (mkMat m.rows m.columns (fun i j => (cofactor m i j).toOption.getD 0)) i j =
        Matrix.adjugate (toM (k + 1) m) ⟨j, hj⟩ ⟨i, hi⟩ := by
  have hcof : ∀ (i j : Nat) (hi : i < k + 1) (hj : j < k + 1),
      (cofactor m i j).toOption.getD 0 = Matrix.adjugate (toM (k + 1) m) ⟨j, hj⟩ ⟨i, hi⟩ := by
    intro i j hi hj
    rw [cofactor_ok h hrn hcn hk hi hj]
    rfl
  constructor
  · unfold complements_matrix
    rw [if_neg (by rw [hrn, hcn]; simp)]
    rw [mapM_ok (fun idx => cofactor m (idx / m.columns) (idx % m.columns))
      (fun idx => (cofactor m (idx / m.columns) (idx % m.columns)).toOption.getD 0)
      (List.range (m.rows * m.columns)) ?hall]
    · rfl
    · intro x hx
      rw [List.mem_range] at hx
      have hcpos : 0 < m.columns := by omega
      have hdiv : x / m.columns < k + 1 := by
        rw [← hrn]
        rw [Nat.div_lt_iff_lt_mul hcpos]
        calc x < m.rows * m.columns := hx
          _ = m.rows * m.columns := rfl
      have hmod : x % m.columns < k + 1 := by
        rw [← hcn]
        exact Nat.mod_lt _ hcpos
      show cofactor m (x / m.columns) (x % m.columns) =
        Except.ok ((cofactor m (x / m.columns) (x % m.columns)).toOption.getD 0)
      rw [hcof _ _ hdiv hmod]
      exact cofactor_ok h hrn hcn hk hdiv hmod
  · intro i j hi hj
    rw [get_mkMat _ (by omega) (by omega)]
    exact hcof i j hi hj

/-! ### Transpose, scalar division and multiplication bridges -/

lemma transposed_rows (m : matrix) : (transposed m).rows = m.columns := rfl

lemma transposed_columns (m : matrix) : (transposed m).columns = m.rows := rfl

lemma transposed_length (m : matrix) :
    (transposed m).data.length = m.columns * m.rows := mkMat_length _ _ _

lemma get_transposed {m : matrix} {i j : Nat} (hi : i < m.columns) (hj : j < m.rows) :
    get_element (transposed m) i j = get_element m j i :=
  get_mkMat _ hi hj

lemma toM_transposed {m : matrix} {n : Nat} (hrn : m.rows = n) (hcn : m.columns = n) :
    toM n (transposed m) = (toM n m).transpose := by
  ext a b
  rw [toM_apply, Matrix.transpose_apply, toM_apply]
  exact get_transposed (by rw [hcn]; exact a.isLt) (by rw [hrn]; exact b.isLt)

lemma smul_rows (m : matrix) (v : ℚ) : (smul m v).rows = m.rows := rfl

lemma smul_columns (m : matrix) (v : ℚ) : (smul m v).columns = m.columns := rfl

lemma smul_length (m : matrix) (v : ℚ) : (smul m v).data.length = m.data.length := by
  simp [smul]

lemma get_smul {m : matrix} (hlen : m.data.length = m.rows * m.columns) {v : ℚ}
    {i j : Nat} (hi : i < m.rows) (hj : j < m.columns) :
    get_element (smul m v) i j = get_element m i j * v := by
  have hidx : m.columns * i + j < m.data.length := by rw [hlen]; exact idx_lt hi hj
  show (m.data.map (fun a => a * v)).getD (m.columns * i + j) 0 = _
  rw [List.getD_eq_getElem?_getD, List.getElem?_map, List.getElem?_eq_getElem hidx]
  rw [get_element_eq_getElem hidx]
  rfl

lemma toM_div_scalar {m : matrix} (hlen : m.data.length = m.rows * m.columns)
    {n : Nat} (hrn : m.rows = n) (hcn : m.columns = n) (d : ℚ) :
    toM n (div_scalar m d) = (1 / d) • toM n m := by
  ext a b
  rw [Matrix.smul_apply, toM_apply, toM_apply, smul_eq_mul]
  unfold div_scalar
  rw [get_smul hlen (by rw [hrn]; exact a.isLt) (by rw [hcn]; exact b.isLt), mul_comm]

lemma foldl_add_sum (f : Nat → ℚ) : ∀ k : Nat,
    (List.range k).foldl (fun acc i => acc + f i) 0 = ∑ i ∈ Finset.range k, f i := by
  intro k
  induction k with
  | zero => simp
  | succ k ih =>
    rw [List.range_succ, List.foldl_append, List.foldl_cons, List.foldl_nil,
      Finset.sum_range_succ, ih]

lemma mul_ok {l r : matrix} (hinner : l.columns = r.rows) :
    mul l r = .ok (mkMat l.rows r.columns (fun i j =>
      (List.range l.columns).foldl
        (fun acc k => acc + get_element l i k * get_element r k j) 0)) := by
  unfold mul
  rw [if_neg (by omega)]

lemma get_mul_entry {l r : matrix} {i j : Nat} (hi : i < l.rows) (hj : j < r.columns) :
    get_element (mkMat l.rows r.columns (fun i j =>
      (List.range l.columns).foldl
        (fun acc k => acc + get_element l i k * get_element r k j) 0)) i j =
      ∑ k ∈ Finset.range l.columns, get_element l i k * get_element r k j := by
  rw [get_mkMat _ hi hj, foldl_add_sum]

lemma toM_mul {l r : matrix} {n : Nat} (hlr : l.rows = n) (hlc : l.columns = n)
    (hrr : r.rows = n) (hrc : r.columns = n) :
    toM n (mkMat l.rows r.columns (fun i j =>
      (List.range l.columns).foldl
        (fun acc k => acc + get_element l i k * get_element r k j) 0)) =
      toM n l * toM n r := by
  ext a b
  rw [toM_apply, Matrix.mul_apply]
  rw [get_mul_entry (by rw [hlr]; exact a.isLt) (by rw [hrc]; exact b.isLt)]
  rw [hlc]
  rw [← Fin.sum_univ_eq_sum_range (fun k => get_element l a k * get_element r k b) n]
  rfl

/-! ### The identity from the diagonal constructor -/

lemma get_diag_fill {m : matrix} (hlen : m.data.length = m.rows * m.columns) (d : ℚ) :
    ∀ kk, kk ≤ m.rows → kk ≤ m.columns → ∀ r, r < m.rows → ∀ c, c < m.columns →
      get_element ((List.range kk).foldl (fun acc i => set_element acc i i d) m) r c =
        if r = c ∧ r < kk then d else get_element m r c := by
  intro kk
  induction kk with
  | zero =>
    intro _ _ r hr c hc
    simp [List.range_zero]
  | succ kk ih =>
    intro hk1 hk2 r hr c hc
    rw [List.range_succ, List.foldl_append, List.foldl_cons, List.foldl_nil]
    obtain ⟨f1, f2, f3⟩ := foldl_dims (fun acc i => set_element acc i i d)
      (fun acc i => ⟨rfl, rfl, set_element_length acc i i d⟩) (List.range kk) m
    rw [get_set_element (by rw [f1, f2, f3, hlen]) (by rw [f1]; omega) (by rw [f2]; omega)
      (by rw [f1]; exact hr) (by rw [f2]; exact hc)]
    rw [ih (by omega) (by omega) r hr c hc]
    by_cases h1 : kk = r ∧ kk = c
    · rw [if_pos h1]
      rw [if_pos ⟨by omega, by omega⟩]
    · rw [if_neg h1]
      by_cases h2 : r = c ∧ r < kk
      · rw [if_pos h2, if_pos ⟨h2.1, by omega⟩]
      · rw [if_neg h2]
        have hne : ¬ (r = c ∧ r < kk + 1) := by
          rintro ⟨g1, g2⟩
          rcases Nat.lt_succ_iff_lt_or_eq.1 g2 with g3 | g3
          · exact h2 ⟨g1, g3⟩
          · exact h1 ⟨by omega, by omega⟩
        rw [if_neg hne]

lemma ofDiag_ok {size : Nat} (hs : size ≠ 0) (d : ℚ) :
    ∃ D, ofDiag size d = .ok D ∧ D.rows = size ∧ D.columns = size ∧
      D.data.length = size * size ∧
      ∀ r c, r < size → c < size →
        get_element D r c = if r = c then d else 0 := by
  have hbase : mk_sized size size = .ok ⟨size, size, List.replicate (size * size) 0⟩ := by
    unfold mk_sized
    rw [if_neg (by omega)]
  refine ⟨_, by unfold ofDiag; rw [hbase]; rfl, ?_, ?_, ?_, ?_⟩
  · obtain ⟨f1, f2, f3⟩ := foldl_dims (fun acc i => set_element acc i i d)
      (fun acc i => ⟨rfl, rfl, set_element_length acc i i d⟩) (List.range size)
      ⟨size, size, List.replicate (size * size) 0⟩
    exact f1
  · obtain ⟨f1, f2, f3⟩ := foldl_dims (fun acc i => set_element acc i i d)
      (fun acc i => ⟨rfl, rfl, set_element_length acc i i d⟩) (List.range size)
      ⟨size, size, List.replicate (size * size) 0⟩
    exact f2
  · obtain ⟨f1, f2, f3⟩ := foldl_dims (fun acc i => set_element acc i i d)
      (fun acc i => ⟨rfl, rfl, set_element_length acc i i d⟩) (List.range size)
      ⟨size, size, List.replicate (size * size) 0⟩
    rw [f3]
    simp
  · intro r c hr hc
    have hget := get_diag_fill (m := ⟨size, size, List.replicate (size * size) 0⟩)
      (by simp) d size (Nat.le_refl _) (Nat.le_refl _) r hr c hc
    rw [hget]
    have hzero : get_element ⟨size, size, List.replicate (size * size) 0⟩ r c = 0 := by
      show (List.replicate (size * size) (0 : ℚ)).getD (size * r + c) 0 = 0
      rw [List.getD_eq_getElem?_getD]
      rcases Nat.lt_or_ge (size * r + c) (size * size) with hlt | hge
      · rw [List.getElem?_replicate, if_pos (by simpa using hlt)]
        rfl
      · rw [List.getElem?_eq_none (by simpa using hge)]
        rfl
    rw [hzero]
    by_cases h1 : r = c
    · rw [if_pos ⟨h1, by omega⟩, if_pos h1]
    · rw [if_neg (by rintro ⟨g1, _⟩; exact h1 g1), if_neg h1]

/-! ### Inverse times the original is the identity -/

lemma inverse_formula {m : matrix} (h : wf m) {k : Nat} (hrn : m.rows = k + 1)
    (hcn : m.columns = k + 1) (hk : 1 ≤ k) {d : ℚ} (hdet : determinant m = .ok d)
    (hd : d ≠ 0) :
    inverse m = .ok (div_scalar (transposed (mkMat m.rows m.columns
      (fun i j => (cofactor m i j).toOption.getD 0))) d) := by
  obtain ⟨hcomp, _⟩ := complements_ok h hrn hcn hk
  unfold inverse
  rw [hdet, ok_bind]
  rw [if_pos hd]
  rw [hcomp, ok_bind]
  rfl

lemma toM_adjugate_of_complements {m : matrix} (h : wf m) {k : Nat}
    (hrn : m.rows = k + 1) (hcn : m.columns = k + 1) (hk : 1 ≤ k) :
    toM (k + 1) (transposed (mkMat m.rows m.columns
      (fun i j => (cofactor m i j).toOption.getD 0))) =
      Matrix.adjugate (toM (k + 1) m) := by
  obtain ⟨_, hCget⟩ := complements_ok h hrn hcn hk
  have hCrows : (mkMat m.rows m.columns
      (fun i j => (cofactor m i j).toOption.getD 0)).rows = k + 1 := by
    rw [mkMat_rows, hrn]
  have hCcols : (mkMat m.rows m.columns
      (fun i j => (cofactor m i j).toOption.getD 0)).columns = k + 1 := by
    rw [mkMat_columns, hcn]
  rw [toM_transposed hCrows hCcols]
  ext a b
  rw [Matrix.transpose_apply, toM_apply]
  have := hCget b a b.isLt a.isLt
  rw [this]

lemma inverse_mul_identity {m : matrix} (h : wf m) {k : Nat} (hrn : m.rows = k + 1)
    (hcn : m.columns = k + 1) (hk : 1 ≤ k) {d : ℚ} (hdet : determinant m = .ok d)
    (hd : d ≠ 0) :
    ∃ inv idm P, inverse m = .ok inv ∧ ofDiag m.rows 1 = .ok idm ∧
      mul m inv = .ok P ∧ P = idm ∧ matEq P idm = true := by
  have hdA : d = (toM (k + 1) m).det := by
    have h2 := determinant_ok h (k + 1) hrn hcn
    rw [hdet] at h2
    exact Except.ok.inj h2
  obtain ⟨idm, hidm, hir, hic, hil, higet⟩ := ofDiag_ok (by omega : m.rows ≠ 0) 1
  have hinv := inverse_formula h hrn hcn hk hdet hd
  set C := mkMat m.rows m.columns (fun i j => (cofactor m i j).toOption.getD 0) with hCdef
  set inv := div_scalar (transposed C) d with hinvdef
  have hCrows : C.rows = k + 1 := by rw [hCdef, mkMat_rows, hrn]
  have hCcols : C.columns = k + 1 := by rw [hCdef, mkMat_columns, hcn]
  have htCrows : (transposed C).rows = k + 1 := by rw [transposed_rows, hCcols]
  have htCcols : (transposed C).columns = k + 1 := by rw [transposed_columns, hCrows]
  have htClen : (transposed C).data.length = (transposed C).rows * (transposed C).columns := by
    rw [transposed_length, htCrows, htCcols, hCrows, hCcols]
  have hinvrows : inv.rows = k + 1 := htCrows
  have hinvcols : inv.columns = k + 1 := htCcols
  have htoMinv : toM (k + 1) inv = (1 / d) • Matrix.adjugate (toM (k + 1) m) := by
    rw [hinvdef]
    rw [toM_div_scalar htClen htCrows htCcols d]
    rw [toM_adjugate_of_complements h hrn hcn hk]
  have hinner : m.columns = inv.rows := by rw [hcn, hinvrows]
  have hmulok := mul_ok hinner
  set P := mkMat m.rows inv.columns (fun i j =>
    (List.range m.columns).foldl
      (fun acc k2 => acc + get_element m i k2 * get_element inv k2 j) 0) with hPdef
  have htoMP : toM (k + 1) P = toM (k + 1) m * toM (k + 1) inv :=
    toM_mul hrn hcn hinvrows hinvcols
  have hPone : toM (k + 1) P = (1 : Matrix (Fin (k + 1)) (Fin (k + 1)) ℚ) := by
    rw [htoMP, htoMinv, Matrix.mul_smul, Matrix.mul_adjugate, smul_smul, ← hdA]
    rw [one_div, inv_mul_cancel₀ hd, one_smul]
  have hPidm : P = idm := by
    apply matrix_ext
    · rw [hPdef, mkMat_rows, hir, hrn]
    · rw [hPdef, mkMat_columns, hinvcols, hic, hrn]
    · rw [hPdef, mkMat_length, mkMat_rows, mkMat_columns]
    · rw [hil, hir, hic]
    · intro r hr c hc
      rw [hPdef, mkMat_rows] at hr
      rw [hPdef, mkMat_columns, hinvcols] at hc
      have hr2 : r < k + 1 := by omega
      have hget := congrFun (congrFun hPone ⟨r, hr2⟩) ⟨c, hc⟩
      rw [toM_apply] at hget
      rw [Matrix.one_apply] at hget
      rw [hget, higet r c (by omega) (by omega)]
      by_cases hrc : r = c
      · rw [if_pos hrc, if_pos (by rw [Fin.mk.injEq]; exact hrc)]
      · rw [if_neg hrc, if_neg (by rw [Fin.mk.injEq]; exact hrc)]
  refine ⟨inv, idm, P, hinv, hidm, hmulok, hPidm, ?_⟩
  rw [hPidm]
  unfold matEq
  rw [if_neg (by simp)]
  simp

/-! ### Inverse error paths -/

lemma error_bind {e a b : Type} (x : e) (f : a → Except e b) :
    (Except.error x >>= f : Except e b) = Except.error x := rfl

lemma inverse_not_square {m : matrix} (hne : m.rows ≠ m.columns) :
    inverse m = .error .NotSquare := by
  unfold inverse
  rw [determinant_not_square hne, error_bind]

lemma inverse_singular {m : matrix} (hdet : determinant m = .ok 0) :
    inverse m = .error .SingularMatrix := by
  unfold inverse
  rw [hdet, ok_bind]
  rw [if_neg (by simp)]

lemma complements_one {m : matrix} (hr1 : m.rows = 1) (hc1 : m.columns = 1) :
    complements_matrix m = .error .DegenerateMinor := by
  unfold complements_matrix
  rw [if_neg (by omega)]
  have h1 : m.rows * m.columns = 1 := by rw [hr1, hc1]
  have hr01 : List.range 1 = [0] := rfl
  rw [h1, hr01]
  have hm : minor_matrix m (0 / m.columns) (0 % m.columns) = .error .DegenerateMinor := by
    unfold minor_matrix
    rw [if_pos (Or.inl hr1)]
  have hcof : cofactor m (0 / m.columns) (0 % m.columns) = .error .DegenerateMinor := by
    unfold cofactor
    rw [hm, error_bind]
  rw [List.mapM_cons, hcof]
  rfl

lemma inverse_one {m : matrix} (hr1 : m.rows = 1) (hc1 : m.columns = 1)
    {d : ℚ} (hdet : determinant m = .ok d) (hd : d ≠ 0) :
    inverse m = .error .DegenerateMinor := by
  unfold inverse
  rw [hdet, ok_bind, if_pos hd, complements_one hr1 hc1, error_bind]

/-! ### Well-formedness of constructors and mutators -/

lemma mk_sized_zero {r c : Nat} (h : r = 0 ∨ c = 0) :
    mk_sized r c = .error .InvalidDimension := by
  unfold mk_sized
  rw [if_pos h]

lemma mk_sized_ok {r c : Nat} (hr : r ≠ 0) (hc : c ≠ 0) :
    ∃ m, mk_sized r c = .ok m ∧ wf m ∧ m.rows = r ∧ m.columns = c := by
  refine ⟨⟨r, c, List.replicate (r * c) 0⟩, by unfold mk_sized; rw [if_neg (by omega)], ?_, rfl, rfl⟩
  refine ⟨by show 1 ≤ r; omega, by show 1 ≤ c; omega, ?_⟩
  show (List.replicate (r * c) (0 : ℚ)).length = r * c
  simp

lemma ofDiag_zero (d : ℚ) : ofDiag 0 d = .error .InvalidDimension := by
  unfold ofDiag
  rw [mk_sized_zero (Or.inl rfl)]
  rfl

lemma ofDiag_wf {size : Nat} (hs : size ≠ 0) (d : ℚ) :
    ∃ D, ofDiag size d = .ok D ∧ wf D := by
  obtain ⟨D, hD, h1, h2, h3, _⟩ := ofDiag_ok hs d
  exact ⟨D, hD, by omega, by omega, by rw [h1, h2, h3]⟩

lemma flatten_length {k : Nat} : ∀ {items : List (List ℚ)},
    (∀ row ∈ items, row.length = k) → items.flatten.length = items.length * k := by
  intro items
  induction items with
  | nil => intro _; simp
  | cons x t ih =>
    intro hall
    rw [List.flatten_cons, List.length_append, List.length_cons,
      hall x (List.mem_cons_self x t), ih (fun y hy => hall y (List.mem_cons_of_mem x hy))]
    ring

lemma from_rows_wf {items : List (List ℚ)} {mm : matrix}
    (h : from_rows items = .ok mm) : wf mm := by
  unfold from_rows at h
  by_cases h1 : items.length = 0
  · rw [if_pos h1] at h
    cases h
  · rw [if_neg h1] at h
    by_cases h2 : (items.headD []).length = 0
    · rw [if_pos h2] at h
      cases h
    · rw [if_neg h2] at h
      by_cases h3 : items.any (fun row => decide (row.length ≠ (items.headD []).length))
      · rw [if_pos h3] at h
        cases h
      · rw [if_neg h3] at h
        have hall : ∀ row ∈ items, row.length = (items.headD []).length := by
          intro row hrow
          by_contra hcon
          apply h3
          rw [List.any_eq_true]
          exact ⟨row, hrow, by simpa using hcon⟩
        have hmm : mm = ⟨items.length, (items.headD []).length, items.flatten⟩ :=
          (Except.ok.inj h).symm
        rw [hmm]
        refine ⟨by show 1 ≤ items.length; omega,
          by show 1 ≤ (items.headD []).length; omega, ?_⟩
        show items.flatten.length = items.length * (items.headD []).length
        exact flatten_length hall

lemma from_rows_zero {items : List (List ℚ)}
    (h : items.length = 0 ∨ (items.headD []).length = 0) :
    from_rows items = .error .InvalidDimension := by
  unfold from_rows
  by_cases h1 : items.length = 0
  · rw [if_pos h1]
  · rw [if_neg h1]
    rw [if_pos (h.resolve_left h1)]

lemma from_vector_zero (b : Bool) : from_vector [] b = .error .InvalidDimension := rfl

lemma from_vector_wf {v : List ℚ} (hv : v ≠ []) (b : Bool) :
    ∃ m, from_vector v b = .ok m ∧ wf m := by
  have hl : v.length ≠ 0 := by simpa using hv
  refine ⟨_, by unfold from_vector; rw [if_neg hl], ?_⟩
  apply mkMat_wf <;> cases b <;> simp <;> omega

lemma add_mismatch {l r : matrix} (h : l.rows ≠ r.rows ∨ l.columns ≠ r.columns) :
    add l r = .error .SizeMismatch := by
  unfold add
  rw [if_pos h]

lemma sub_mismatch {l r : matrix} (h : l.rows ≠ r.rows ∨ l.columns ≠ r.columns) :
    sub l r = .error .SizeMismatch := by
  unfold sub
  rw [if_pos h]

lemma add_wf {l r : matrix} (hl : wf l) (hr : wf r) {mm : matrix}
    (h : add l r = .ok mm) : wf mm := by
  unfold add at h
  by_cases hs : l.rows ≠ r.rows ∨ l.columns ≠ r.columns
  · rw [if_pos hs] at h
    cases h
  · rw [if_neg hs] at h
    push_neg at hs
    have hmm := (Except.ok.inj h).symm
    rw [hmm]
    refine ⟨hl.1, hl.2.1, ?_⟩
    show (l.data.zipWith (fun a b => a + b) r.data).length = l.rows * l.columns
    rw [List.length_zipWith, hl.2.2, hr.2.2, hs.1, hs.2, Nat.min_self]

lemma sub_wf {l r : matrix} (hl : wf l) (hr : wf r) {mm : matrix}
    (h : sub l r = .ok mm) : wf mm := by
  unfold sub at h
  by_cases hs : l.rows ≠ r.rows ∨ l.columns ≠ r.columns
  · rw [if_pos hs] at h
    cases h
  · rw [if_neg hs] at h
    push_neg at hs
    have hmm := (Except.ok.inj h).symm
    rw [hmm]
    refine ⟨hl.1, hl.2.1, ?_⟩
    show (l.data.zipWith (fun a b => a - b) r.data).length = l.rows * l.columns
    rw [List.length_zipWith, hl.2.2, hr.2.2, hs.1, hs.2, Nat.min_self]

lemma mul_mismatch {l r : matrix} (h : l.columns ≠ r.rows) :
    mul l r = .error .InnerSizeMismatch := by
  unfold mul
  rw [if_pos h]

lemma mul_wf {l r : matrix} (hl : wf l) (hr : wf r) {mm : matrix}
    (h : mul l r = .ok mm) : wf mm := by
  unfold mul at h
  by_cases hs : l.columns ≠ r.rows
  · rw [if_pos hs] at h
    cases h
  · rw [if_neg hs] at h
    have hmm := (Except.ok.inj h).symm
    rw [hmm]
    exact mkMat_wf hl.1 hr.2.1 _

lemma smul_wf {m : matrix} (h : wf m) (v : ℚ) : wf (smul m v) :=
  ⟨h.1, h.2.1, by rw [smul_length]; exact h.2.2⟩

lemma div_scalar_wf {m : matrix} (h : wf m) (v : ℚ) : wf (div_scalar m v) :=
  smul_wf h (1 / v)

lemma set_rows_zero (m : matrix) : set_rows m 0 = .error .InvalidDimension := by
  unfold set_rows
  rw [if_pos rfl]

lemma set_rows_wf {m : matrix} (h : wf m) {n : Nat} (hn : n ≠ 0) :
    ∃ mm, set_rows m n = .ok mm ∧ wf mm ∧ mm.rows = n ∧ mm.columns = m.columns := by
  refine ⟨mkMat n m.columns (fun i j => if i < m.rows then get_element m i j else 0),
    ?_, ?_, mkMat_rows _ _ _, mkMat_columns _ _ _⟩
  · unfold set_rows
    rw [if_neg hn]
  · exact mkMat_wf (by omega) h.2.1 _

lemma set_columns_zero (m : matrix) : set_columns m 0 = .error .InvalidDimension := by
  unfold set_columns
  rw [if_pos rfl]

lemma set_columns_wf {m : matrix} (h : wf m) {n : Nat} (hn : n ≠ 0) :
    ∃ mm, set_columns m n = .ok mm ∧ wf mm ∧ mm.rows = m.rows ∧ mm.columns = n := by
  refine ⟨mkMat m.rows n (fun i j => if j < m.columns then get_element m i j else 0),
    ?_, ?_, mkMat_rows _ _ _, mkMat_columns _ _ _⟩
  · unfold set_columns
    rw [if_neg hn]
  · exact mkMat_wf h.1 (by omega) _

/-! ### Transposition is an involution -/

lemma transposed_involution {m : matrix} (h : wf m) : transposed (transposed m) = m := by
  apply matrix_ext
  · rfl
  · rfl
  · exact mkMat_length _ _ _
  · exact h.2.2
  intro r hr c hc
  rw [get_transposed (show r < (transposed m).columns from hr)
    (show c < (transposed m).rows from hc)]
  rw [get_transposed (show c < m.columns from hc) (show r < m.rows from hr)]

/-! ### The templated stream output realises the spec's row format -/

lemma fold_sep_join_aux (f : Nat → String) (sep : String) (n : Nat) :
    ∀ len a s0, a + len = n → 1 ≤ len →
      (List.range' a len).foldl (fun s j => s ++ f j ++ (if j ≠ n - 1 then sep else "")) s0 =
        s0 ++ spec_join sep ((List.range' a len).map f) := by
  intro len
  induction len with
  | zero => intro a s0 _ h1; omega
  | succ len ih =>
    intro a s0 hsum _
    rw [List.range'_succ]
    rcases Nat.eq_zero_or_pos len with h0 | hpos
    · subst h0
      rw [List.foldl_cons, List.range'_zero, List.foldl_nil, List.map_cons, List.map_nil]
      rw [if_neg (by omega)]
      rw [String.append_empty]
      rfl
    · rw [List.foldl_cons, List.map_cons]
      rw [if_pos (by omega : a ≠ n - 1)]
      rw [ih (a + 1) (s0 ++ f a ++ sep) (by omega) (by omega)]
      obtain ⟨len1, hlen1⟩ : ∃ l1, len = l1 + 1 := ⟨len - 1, by omega⟩
      subst hlen1
      rw [List.range'_succ, List.map_cons]
      show s0 ++ f a ++ sep ++ spec_join sep (f (a + 1) :: List.map f (List.range' (a + 2) len1)) =
        s0 ++ (f a ++ sep ++ spec_join sep (f (a + 1) :: List.map f (List.range' (a + 2) len1)))
      rw [String.append_assoc s0 (f a) sep, String.append_assoc]

lemma empty_append (s : String) : "" ++ s = s := by
  have h := String.append_empty ""
  rcases s with ⟨l⟩
  show String.mk ([] ++ l) = String.mk l
  rw [List.nil_append]

lemma tmpl_row_eq {m : matrix} (hc : 1 ≤ m.columns) (i : Nat) :
    tmpl_row_string m i =
      spec_join " " ((List.range m.columns).map (fun j => render_elem (get_element m i j))) := by
  unfold tmpl_row_string
  rw [List.range_eq_range']
  rw [fold_sep_join_aux (fun j => render_elem (get_element m i j)) " " m.columns
    m.columns 0 "" (by omega) hc]
  rw [empty_append]

lemma tmpl_print_eq_spec {m : matrix} (h : wf m) : tmpl_print m = spec_print m := by
  unfold tmpl_print spec_print
  have hfun : (fun (s : String) (i : Nat) => s ++ "\x7b" ++ tmpl_row_string m i ++ "\x7d" ++
      (if i ≠ m.rows - 1 then "\n" else "")) =
      (fun (s : String) (i : Nat) => s ++ ("\x7b" ++ tmpl_row_string m i ++ "\x7d") ++
      (if i ≠ m.rows - 1 then "\n" else "")) := by
    funext s i
    rw [String.append_assoc s, String.append_assoc s]
  rw [hfun, List.range_eq_range']
  rw [fold_sep_join_aux (fun i => "\x7b" ++ tmpl_row_string m i ++ "\x7d") "\n" m.rows
    m.rows 0 "" (by omega) h.1]
  rw [empty_append, ← List.range_eq_range']
  congr 1
  apply List.map_congr_left
  intro i _
  rw [tmpl_row_eq h.2.1 i]

/-! ### The claims -/

/-- C1 (amended): `inverse` fails with NotSquare on a non-square matrix
(the determinant call performs the square check first); fails with
SingularMatrix when the determinant is 0; for a square matrix with
nonzero determinant and at least 2 rows it succeeds and returns
`complements_matrix` transposed, divided by the determinant; a 1x1 matrix
with nonzero determinant does NOT succeed: `complements_matrix` calls
`minor_matrix`, which throws for any dimension equal to 1, so the call
fails with DegenerateMinor. -/
theorem c1_inverse_contract (m : matrix) (h : wf m) :
    (m.rows ≠ m.columns → inverse m = .error .NotSquare) ∧
    (determinant m = .ok 0 → inverse m = .error .SingularMatrix) ∧
    (∀ d : ℚ, determinant m = .ok d → d ≠ 0 → 2 ≤ m.rows → m.rows = m.columns →
      ∃ C, complements_matrix m = .ok C ∧ inverse m = .ok (div_scalar (transposed C) d)) ∧
    (∀ d : ℚ, determinant m = .ok d → d ≠ 0 → m.rows = 1 → m.columns = 1 →
      inverse m = .error .DegenerateMinor) := by
  refine ⟨inverse_not_square, inverse_singular, ?_, ?_⟩
  · intro d hdet hd h2 hsq
    obtain ⟨k, hk⟩ : ∃ k, m.rows = k + 1 := ⟨m.rows - 1, by omega⟩
    have hk1 : 1 ≤ k := by omega
    obtain ⟨hcomp, _⟩ := complements_ok h hk (by omega) hk1
    exact ⟨_, hcomp, inverse_formula h hk (by omega) hk1 hdet hd⟩
  · intro d hdet hd hr1 hc1
    exact inverse_one hr1 hc1 hdet hd

unseal Rat.add Rat.sub Rat.mul Rat.inv in
/-- Witness for C1: the concrete matrix [[1,2],[3,4]] has determinant -2
and its inverse is the transposed complements matrix divided by -2. -/
theorem c1_witness : ∃ C, complements_matrix ⟨2, 2, [1, 2, 3, 4]⟩ = .ok C ∧
    inverse ⟨2, 2, [1, 2, 3, 4]⟩ = .ok (div_scalar (transposed C) (-2)) := by
  have h := c1_inverse_contract ⟨2, 2, [1, 2, 3, 4]⟩ (by decide)
  exact h.2.2.1 (-2) (by decide) (by decide) (by decide) (by decide)

unseal Rat.add Rat.sub Rat.mul Rat.inv in
/-- Counterexample for C1 as stated: the 1x1 matrix [2] is square with
determinant 2 but `inverse` throws instead of succeeding. -/
theorem c1_counterexample :
    determinant ⟨1, 1, [2]⟩ = .ok 2 ∧ (2 : ℚ) ≠ 0 ∧
    inverse ⟨1, 1, [2]⟩ = .error .DegenerateMinor := by
  refine ⟨by decide, by decide, by decide⟩

/-- C2: the source `upper_triangle_matrix` is exactly the spec's
column-by-column elimination (pivot search for the first nonzero row at
or below the diagonal, skip when none, ADD the pivot row into row j when
it differs, subtract multiplier times the pivot row from every lower row
with a nonzero entry), and each processed column ends with zeros strictly
below the diagonal; the input matrix is a value, so it is not mutated. -/
theorem c2_upper_triangle (m : matrix) (h : wf m) (hc : 2 ≤ m.columns) :
    upper_triangle_matrix m = spec_upper_triangle m ∧
    (∀ j, j < m.columns - 1 → ∀ r, j < r → r < m.rows →
      get_element (upper_triangle_matrix m) r j = 0) := by
  refine ⟨upper_triangle_eq_spec h, ?_⟩
  intro j hj r hr hrr
  obtain ⟨u1, _, _⟩ := upper_triangle_dims m
  exact upper_triangle_below_zeroed h j hj r hr (by rw [u1]; exact hrr)

unseal Rat.add Rat.sub Rat.mul Rat.inv in
/-- Witness for C2: a 3x3 matrix whose first pivot search must skip a
zero and whose elimination zeroes the lower triangle. -/
theorem c2_witness :
    upper_triangle_matrix ⟨3, 3, [0, 2, 1, 1, 1, 1, 2, 4, 6]⟩ =
      spec_upper_triangle ⟨3, 3, [0, 2, 1, 1, 1, 1, 2, 4, 6]⟩ ∧
    get_element (upper_triangle_matrix ⟨3, 3, [0, 2, 1, 1, 1, 1, 2, 4, 6]⟩) 2 0 = 0 := by
  have h := c2_upper_triangle ⟨3, 3, [0, 2, 1, 1, 1, 1, 2, 4, 6]⟩ (by decide) (by decide)
  exact ⟨h.1, h.2 0 (by decide) 2 (by decide) (by decide)⟩

/-- C3 (amended): for every square matrix with at least 2 rows whose
determinant is nonzero, multiplying the matrix by its inverse yields the
identity matrix `Matrix(rows, 1)` exactly, under exact rational
arithmetic; for a 1x1 matrix the claim fails because `inverse` throws
DegenerateMinor (see the counterexample). -/
theorem c3_inverse_identity (m : matrix) (h : wf m) (hsq : m.rows = m.columns)
    (h2 : 2 ≤ m.rows) (d : ℚ) (hdet : determinant m = .ok d) (hd : d ≠ 0) :
    ∃ inv idm P, inverse m = .ok inv ∧ ofDiag m.rows 1 = .ok idm ∧
      mul m inv = .ok P ∧ matEq P idm = true := by
  obtain ⟨k, hk⟩ : ∃ k, m.rows = k + 1 := ⟨m.rows - 1, by omega⟩
  obtain ⟨inv, idm, P, h1, h2b, h3, _, h5⟩ :=
    inverse_mul_identity h hk (by omega) (by omega) hdet hd
  exact ⟨inv, idm, P, h1, h2b, h3, h5⟩

unseal Rat.add Rat.sub Rat.mul Rat.inv in
/-- Witness for C3: [[1,2],[3,4]] times its inverse is the 2x2 identity. -/
theorem c3_witness : ∃ inv idm P, inverse ⟨2, 2, [1, 2, 3, 4]⟩ = .ok inv ∧
    ofDiag 2 1 = .ok idm ∧ mul ⟨2, 2, [1, 2, 3, 4]⟩ inv = .ok P ∧ matEq P idm = true :=
  c3_inverse_identity ⟨2, 2, [1, 2, 3, 4]⟩ (by decide) (by decide) (by decide)
    (-2) (by decide) (by decide)

unseal Rat.add Rat.sub Rat.mul Rat.inv in
/-- Counterexample for C3 as stated: the 1x1 matrix [3] is square and
invertible (determinant 3), yet `inverse` fails, so no product with the
inverse exists at all. -/
theorem c3_counterexample :
    determinant ⟨1, 1, [3]⟩ = .ok 3 ∧ (3 : ℚ) ≠ 0 ∧
    inverse ⟨1, 1, [3]⟩ = .error .DegenerateMinor := by
  refine ⟨by decide, by decide, by decide⟩

unseal Rat.add Rat.sub Rat.mul Rat.inv in
/-- C4: matrix multiplication requires the left operand's column count to
equal the right operand's row count and fails with InnerSizeMismatch
otherwise; on success the result has shape rows x other.columns with
entry (i,j) the sum over k of l(i,k)*r(k,j); the concrete scenario
[[1,2,3],[4,5,6]] * [[7,8],[9,10],[11,12]] = [[58,64],[139,154]] holds. -/
theorem c4_mul_contract (l r : matrix) (hl : wf l) (hr : wf r) :
    (l.columns ≠ r.rows → mul l r = .error .InnerSizeMismatch) ∧
    (l.columns = r.rows → ∃ P, mul l r = .ok P ∧ wf P ∧ P.rows = l.rows ∧
      P.columns = r.columns ∧
      ∀ i, i < l.rows → ∀ j, j < r.columns →
        get_element P i j =
          ∑ k ∈ Finset.range l.columns, get_element l i k * get_element r k j) ∧
    mul ⟨2, 3, [1, 2, 3, 4, 5, 6]⟩ ⟨3, 2, [7, 8, 9, 10, 11, 12]⟩ =
      .ok ⟨2, 2, [58, 64, 139, 154]⟩ := by
  refine ⟨mul_mismatch, ?_, by decide⟩
  intro hinner
  refine ⟨_, mul_ok hinner, mkMat_wf hl.1 hr.2.1 _, mkMat_rows _ _ _, mkMat_columns _ _ _, ?_⟩
  intro i hi j hj
  exact get_mul_entry hi hj

unseal Rat.add Rat.sub Rat.mul Rat.inv in
/-- Witness for C4 at the spec's concrete scenario matrices. -/
theorem c4_witness : ∃ P, mul ⟨2, 3, [1, 2, 3, 4, 5, 6]⟩ ⟨3, 2, [7, 8, 9, 10, 11, 12]⟩ =
    .ok P ∧ wf P ∧ P.rows = 2 ∧ P.columns = 2 ∧
    ∀ i, i < 2 → ∀ j, j < 2 →
      get_element P i j = ∑ k ∈ Finset.range 3,
        get_element (⟨2, 3, [1, 2, 3, 4, 5, 6]⟩ : matrix) i k *
          get_element (⟨3, 2, [7, 8, 9, 10, 11, 12]⟩ : matrix) k j := by
  have h := c4_mul_contract ⟨2, 3, [1, 2, 3, 4, 5, 6]⟩ ⟨3, 2, [7, 8, 9, 10, 11, 12]⟩
    (by decide) (by decide)
  exact h.2.1 (by decide)

/-- C5: every constructor result and every mutating-operation result
satisfies the class invariant (positive dimensions, store of exactly
rows*columns elements), and constructors or resizes given a zero
dimension fail with InvalidDimension, producing nothing. -/
theorem c5_invariants (r c : Nat) (q : ℚ) (v : List ℚ) (b : Bool)
    (items : List (List ℚ)) (l m : matrix) (hl : wf l) (hm : wf m) :
    (r = 0 ∨ c = 0 → mk_sized r c = .error .InvalidDimension) ∧
    (r ≠ 0 → c ≠ 0 → ∃ mm, mk_sized r c = .ok mm ∧ wf mm) ∧
    ofDiag 0 q = .error .InvalidDimension ∧
    (r ≠ 0 → ∃ D, ofDiag r q = .ok D ∧ wf D) ∧
    (items.length = 0 ∨ (items.headD []).length = 0 →
      from_rows items = .error .InvalidDimension) ∧
    (∀ mm, from_rows items = .ok mm → wf mm) ∧
    from_vector [] b = .error .InvalidDimension ∧
    (v ≠ [] → ∃ mm, from_vector v b = .ok mm ∧ wf mm) ∧
    (∀ mm, add l m = .ok mm → wf mm) ∧
    (∀ mm, sub l m = .ok mm → wf mm) ∧
    (∀ mm, mul l m = .ok mm → wf mm) ∧
    wf (smul m q) ∧ wf (div_scalar m q) ∧
    set_rows m 0 = .error .InvalidDimension ∧
    (r ≠ 0 → ∃ mm, set_rows m r = .ok mm ∧ wf mm) ∧
    set_columns m 0 = .error .InvalidDimension ∧
    (r ≠ 0 → ∃ mm, set_columns m r = .ok mm ∧ wf mm) := by
  refine ⟨mk_sized_zero, ?_, ofDiag_zero q, fun hr0 => ofDiag_wf hr0 q,
    fun hz => from_rows_zero hz,
    fun mm hmm => from_rows_wf hmm, from_vector_zero b, fun hv => from_vector_wf hv b,
    fun mm hmm => add_wf hl hm hmm, fun mm hmm => sub_wf hl hm hmm,
    fun mm hmm => mul_wf hl hm hmm, smul_wf hm q, div_scalar_wf hm q,
    set_rows_zero m, ?_, set_columns_zero m, ?_⟩
  · intro hr0 hc0
    obtain ⟨mm, h1, h2, _, _⟩ := mk_sized_ok hr0 hc0
    exact ⟨mm, h1, h2⟩
  · intro hr0
    obtain ⟨mm, h1, h2, _, _⟩ := set_rows_wf hm hr0
    exact ⟨mm, h1, h2⟩
  · intro hr0
    obtain ⟨mm, h1, h2, _, _⟩ := set_columns_wf hm hr0
    exact ⟨mm, h1, h2⟩

/-- Witness for C5 at concrete arguments, exercising the zero-dimension
error paths of the sized and nested-list constructors and of SetRows. -/
theorem c5_witness : mk_sized 0 5 = .error .InvalidDimension ∧
    from_rows ([[], []] : List (List ℚ)) = .error .InvalidDimension ∧
    wf (smul ⟨2, 2, [1, 2, 3, 4]⟩ 3) ∧
    set_rows (⟨2, 2, [1, 2, 3, 4]⟩ : matrix) 0 = .error .InvalidDimension := by
  have h := c5_invariants 0 5 3 [1, 2] true [[], []] ⟨2, 2, [5, 6, 7, 8]⟩
    ⟨2, 2, [1, 2, 3, 4]⟩ (by decide) (by decide)
  obtain ⟨h1, h2, h3, h4, h5, h6, h7, h8, h9, h10, h11, h12, h13, h14, h15, h16, h17⟩ := h
  exact ⟨h1 (Or.inl rfl), h5 (Or.inr rfl), h12, h14⟩

/-- C6 (code bug): the templated `Matrix<T>::operator==` initialises both
iterators from the receiver's `Begin()`, so after the size check it
compares the receiver's elements with themselves and returns true for any
two equally-shaped matrices, contradicting its own doc comment ("Exact
comparsion of two matrices"): [[1,2],[3,4]] == [[5,6],[7,8]] evaluates to
true even though the stores differ (the non-template `operator==` in
math_matrix.cc, `matEq`, correctly returns false). -/
theorem c6_tmpl_eq_bug :
    tmpl_eq ⟨2, 2, [1, 2, 3, 4]⟩ ⟨2, 2, [5, 6, 7, 8]⟩ = true ∧
    (⟨2, 2, [1, 2, 3, 4]⟩ : matrix).data ≠ (⟨2, 2, [5, 6, 7, 8]⟩ : matrix).data ∧
    matEq ⟨2, 2, [1, 2, 3, 4]⟩ ⟨2, 2, [5, 6, 7, 8]⟩ = false := by
  refine ⟨by decide, by decide, by decide⟩

/-- C7: in-place add and subtract check the shapes first and fail with
SizeMismatch on any mismatch, before any element is written, so the
receiver is unchanged (in this embedding a failing call returns only the
error and no matrix). -/
theorem c7_add_sub_mismatch (l r : matrix)
    (h : l.rows ≠ r.rows ∨ l.columns ≠ r.columns) :
    add l r = .error .SizeMismatch ∧ sub l r = .error .SizeMismatch :=
  ⟨add_mismatch h, sub_mismatch h⟩

/-- Witness for C7: a 1x1 and a 2x1 matrix mismatch. -/
theorem c7_witness : add ⟨1, 1, [1]⟩ ⟨2, 1, [1, 2]⟩ = .error .SizeMismatch ∧
    sub ⟨1, 1, [1]⟩ ⟨2, 1, [1, 2]⟩ = .error .SizeMismatch :=
  c7_add_sub_mismatch ⟨1, 1, [1]⟩ ⟨2, 1, [1, 2]⟩ (by decide)

/-- C8: `transposed` returns a new columns x rows matrix with
result(i,j) = m(j,i) (the input is a value and is not mutated), and
transposition is an involution. -/
theorem c8_transpose (m : matrix) (h : wf m) :
    (transposed m).rows = m.columns ∧ (transposed m).columns = m.rows ∧
    (∀ i, i < m.columns → ∀ j, j < m.rows →
      get_element (transposed m) i j = get_element m j i) ∧
    transposed (transposed m) = m := by
  refine ⟨transposed_rows m, transposed_columns m, ?_, transposed_involution h⟩
  intro i hi j hj
  exact get_transposed hi hj

/-- Witness for C8 at a concrete 2x3 matrix. -/
theorem c8_witness :
    (transposed ⟨2, 3, [1, 2, 3, 4, 5, 6]⟩).rows = 3 ∧
    (transposed ⟨2, 3, [1, 2, 3, 4, 5, 6]⟩).columns = 2 ∧
    get_element (transposed ⟨2, 3, [1, 2, 3, 4, 5, 6]⟩) 2 1 =
      get_element (⟨2, 3, [1, 2, 3, 4, 5, 6]⟩ : matrix) 1 2 ∧
    transposed (transposed ⟨2, 3, [1, 2, 3, 4, 5, 6]⟩) = ⟨2, 3, [1, 2, 3, 4, 5, 6]⟩ := by
  have h := c8_transpose ⟨2, 3, [1, 2, 3, 4, 5, 6]⟩ (by decide)
  exact ⟨h.1, h.2.1, h.2.2.1 2 (by decide) 1 (by decide), h.2.2.2⟩

/-- C9 (amended): the templated `Matrix<T>` stream output renders each
row as an opening brace, the elements separated by single spaces, and a
closing brace, with a line break between consecutive rows and no
trailing separator, exactly the spec's format; printing
Matrix([[1,2],[3,4]]) yields the two-line text with braces. The
non-template `matrix` stream output in math_matrix.cc instead brackets
each row with the characters 0x5b/0x5d (see the counterexample). -/
theorem c9_tmpl_print (m : matrix) (h : wf m) :
    tmpl_print m = spec_print m ∧
    tmpl_print ⟨2, 2, [1, 2, 3, 4]⟩ = "\x7b1 2\x7d\n\x7b3 4\x7d" := by
  refine ⟨tmpl_print_eq_spec h, by decide⟩

/-- Witness for C9 at the spec's concrete scenario. -/
theorem c9_witness :
    tmpl_print ⟨2, 2, [1, 2, 3, 4]⟩ = spec_print ⟨2, 2, [1, 2, 3, 4]⟩ ∧
    tmpl_print ⟨2, 2, [1, 2, 3, 4]⟩ = "\x7b1 2\x7d\n\x7b3 4\x7d" :=
  c9_tmpl_print ⟨2, 2, [1, 2, 3, 4]⟩ (by decide)

/-- Counterexample for C9 as stated: the non-template `operator<<` of
math_matrix.cc renders [[1,2],[3,4]] with square brackets, not braces. -/
theorem c9_counterexample :
    cc_print ⟨2, 2, [1, 2, 3, 4]⟩ = "[1 2]\n[3 4]" ∧
    cc_print ⟨2, 2, [1, 2, 3, 4]⟩ ≠ "\x7b1 2\x7d\n\x7b3 4\x7d" := by
  refine ⟨by decide, by decide⟩

/-- C10 (code bug): `find_not_zero_row` evaluates
`!get_element(from_row, column)` BEFORE testing `from_row < rows_`, so
when a column has no nonzero entry at or below the diagonal the loop's
final test reads linear index rows*columns + column, one full row past
the store. On UpperTriangle() of [[0,1],[0,2]] the column-0 pivot search
(`find_not_zero_row` at from_row = 0, column = 0, exactly the call
`gauss_step` makes at j = 0) reads indices 0, 2 and then 4 = rows*columns,
violating the claimed bound, before returning 2 (= rows, so the column is
skipped). -/
theorem c10_oob_read :
    find_not_zero_row_reads ⟨2, 2, [0, 1, 0, 2]⟩ 0 0 = [0, 2, 4] ∧
    ¬ (∀ idx ∈ find_not_zero_row_reads ⟨2, 2, [0, 1, 0, 2]⟩ 0 0,
        idx < (⟨2, 2, [0, 1, 0, 2]⟩ : matrix).rows * (⟨2, 2, [0, 1, 0, 2]⟩ : matrix).columns) ∧
    find_not_zero_row ⟨2, 2, [0, 1, 0, 2]⟩ 0 0 = 2 := by
  refine ⟨by decide, by decide, by decide⟩

end math
